import Mathlib

/-!
# sf_PerlinGain — the per-pixel gain transform

A shallow embedding of `src/sf_PerlinGain.cpp`: the luminance helpers, the gain curve
`perlin_gain_value`, one pixel step of `pixel_engine`, the row loop of `pixel_engine`
over the requested channels, and the channel declaration of `_validate`.

The C++ works on `float`/`double`.  Here every sample is an element of a linearly
ordered field `α` and the decimal literals of the source are read at face value
(`0.2125f` is `2125/10000`, `0.00001` is `1/100000`), so statements are about the
arithmetic the source writes down, rounding set aside.  Over `ℚ` the definitions
evaluate; over `ℝ` the two libm routines get their mathematical meaning.

Where a statement depends on the rounding itself, the C type `float` is modelled by
`f32`, the round-to-nearest-even storage of a value in binary32, and
`y_convert_rec709_float` is the Rec709 helper with every literal, product and sum
rounded.  NaN is not a value of the model: where the source's `powf` call has a negative
base and a non-integer exponent, the theorems show the call and its arguments.
-/

namespace PerlinGain

/-- The two libm routines `perlin_gain_value` calls.  They are kept abstract so that
the rest of the transform stays executable and so that a statement proved for every
instance visibly does not depend on what `powf` and `logf` return. -/
class Libm (α : Type) where
  /-- The C routine `powf(x, y)`. -/
  powf : α → α → α
  /-- The C routine `logf(x)`. -/
  logf : α → α

/-- Exact-real reading of libm: `powf x y` is the real power `x ^ y` and `logf` the
natural logarithm.  It agrees with C on every call the curve makes for a luminance
in `[0,1]` and a gain in `[0,1)`: the base is then in `[0,1]`, the exponent is `≥ 0`,
and `powf(0, 0) = 1`, `powf(0, y) = 0` for `y > 0`, `powf(x, 1) = x` hold in both. -/
noncomputable instance realLibm : Libm ℝ where
  powf x y := x ^ y
  logf x := Real.log x

/-- Source: `enum {REC709 = 0, CCIR601, AVERAGE, MAXIMUM}`, the values the `mode`
enumeration knob can take and the four `case` labels of `pixel_engine`. -/
inductive Mode where
  | REC709
  | CCIR601
  | AVERAGE
  | MAXIMUM
  deriving DecidableEq, Repr

/-- The knob-controlled members of `class sf_PerlinGainIop`. -/
structure sf_PerlinGainIop (α : Type) where
  gain : α
  clampwhites : Bool
  clampblacks : Bool
  mode : Mode

section Kernel

variable {α : Type} [LinearOrderedField α]

/-- Source lines 96-99. -/
def y_convert_rec709 (r g b : α) : α :=
  r * 0.2125 + g * 0.7154 + b * 0.0721

/-- Source lines 101-104. -/
def y_convert_ccir601 (r g b : α) : α :=
  r * 0.299 + g * 0.587 + b * 0.114

/-- Source lines 106-109. -/
def y_convert_avg (r g b : α) : α :=
  (r + g + b) / 3.0

/-- Source lines 111-120: the parameter `r` is overwritten twice, then returned. -/
def y_convert_max (r g b : α) : α :=
  let r1 := if g > r then g else r
  let r2 := if b > r1 then b else r1
  r2

/-- Source lines 122-152.  The parameters `r`, `g`, `b` are unused by the body, as in
the source; `gain` is read from the object. -/
def perlin_gain_value [Libm α] (self : sf_PerlinGainIop α) (_r _g _b lum : α) : α :=
  let temp : α :=
    if lum < 0.5 then
      if (1 - self.gain) > 0 then
        Libm.powf (2 * lum) (Libm.logf (1 - self.gain) / Libm.logf 0.5)
      else
        0
    else
      if (1 - self.gain) > 0 then
        2 - Libm.powf (2 - 2 * lum) (Libm.logf (1 - self.gain) / Libm.logf 0.5)
      else
        2 - 0
  temp * 0.5

/-- Modelled from the spec: `clamp(a, lo, hi)` of the host header `DDImage/DDMath.h`,
which is not part of the sources; the spec says the call with both flags set "clamp[s]
each channel to [0,1]", i.e. restricts `a` to the range `lo .. hi`. -/
def clamp (a lo hi : α) : α :=
  if a < lo then lo else if a > hi then hi else a

/-- One iteration of the `while (rIn < END)` loops of `pixel_engine` (source lines
188-434): the three input samples of one position go in, the three values stored
through `rOut`, `gOut`, `bOut` come out.  The four `case` bodies are transcribed one
by one, each with its own four clamp branches, as the source has them. -/
def pixel_engine_pixel [Libm α] (self : sf_PerlinGainIop α) (rIn gIn bIn : α) :
    α × α × α :=
  match self.mode with
  | Mode.REC709 =>
    let lum := y_convert_rec709 rIn gIn bIn
    let val := perlin_gain_value self rIn gIn bIn lum
    if self.clampwhites && self.clampblacks then
      (clamp (rIn * (val / (lum + 0.00001))) 0.0 1.0,
       clamp (gIn * (val / (lum + 0.00001))) 0.0 1.0,
       clamp (bIn * (val / (lum + 0.00001))) 0.0 1.0)
    else if self.clampwhites then
      let rValue := rIn * (val / (lum + 0.00001))
      let gValue := gIn * (val / (lum + 0.00001))
      let bValue := bIn * (val / (lum + 0.00001))
      (if rValue > 1.0 then 1.0 else rValue,
       if gValue > 1.0 then 1.0 else gValue,
       if bValue > 1.0 then 1.0 else bValue)
    else if self.clampblacks then
      let rValue := rIn * (val / (lum + 0.00001))
      let gValue := gIn * (val / (lum + 0.00001))
      let bValue := bIn * (val / (lum + 0.00001))
      (if rValue < 0.0 then 0.0 else rValue,
       if gValue < 0.0 then 0.0 else gValue,
       if bValue < 0.0 then 0.0 else bValue)
    else
      (rIn * (val / (lum + 0.00001)),
       gIn * (val / (lum + 0.00001)),
       bIn * (val / (lum + 0.00001)))
  | Mode.CCIR601 =>
    let lum := y_convert_ccir601 rIn gIn bIn
    let val := perlin_gain_value self rIn gIn bIn lum
    if self.clampwhites && self.clampblacks then
      (clamp (rIn * (val / (lum + 0.00001))) 0.0 1.0,
       clamp (gIn * (val / (lum + 0.00001))) 0.0 1.0,
       clamp (bIn * (val / (lum + 0.00001))) 0.0 1.0)
    else if self.clampwhites then
      let rValue := rIn * (val / (lum + 0.00001))
      let gValue := gIn * (val / (lum + 0.00001))
      let bValue := bIn * (val / (lum + 0.00001))
      (if rValue > 1.0 then 1.0 else rValue,
       if gValue > 1.0 then 1.0 else gValue,
       if bValue > 1.0 then 1.0 else bValue)
    else if self.clampblacks then
      let rValue := rIn * (val / (lum + 0.00001))
      let gValue := gIn * (val / (lum + 0.00001))
      let bValue := bIn * (val / (lum + 0.00001))
      (if rValue < 0.0 then 0.0 else rValue,
       if gValue < 0.0 then 0.0 else gValue,
       if bValue < 0.0 then 0.0 else bValue)
    else
      (rIn * (val / (lum + 0.00001)),
       gIn * (val / (lum + 0.00001)),
       bIn * (val / (lum + 0.00001)))
  | Mode.AVERAGE =>
    let lum := y_convert_avg rIn gIn bIn
    let val := perlin_gain_value self rIn gIn bIn lum
    if self.clampwhites && self.clampblacks then
      (clamp (rIn * (val / (lum + 0.00001))) 0.0 1.0,
       clamp (gIn * (val / (lum + 0.00001))) 0.0 1.0,
       clamp (bIn * (val / (lum + 0.00001))) 0.0 1.0)
    else if self.clampwhites then
      let rValue := rIn * (val / (lum + 0.00001))
      let gValue := gIn * (val / (lum + 0.00001))
      let bValue := bIn * (val / (lum + 0.00001))
      (if rValue > 1.0 then 1.0 else rValue,
       if gValue > 1.0 then 1.0 else gValue,
       if bValue > 1.0 then 1.0 else bValue)
    else if self.clampblacks then
      let rValue := rIn * (val / (lum + 0.00001))
      let gValue := gIn * (val / (lum + 0.00001))
      let bValue := bIn * (val / (lum + 0.00001))
      (if rValue < 0.0 then 0.0 else rValue,
       if gValue < 0.0 then 0.0 else gValue,
       if bValue < 0.0 then 0.0 else bValue)
    else
      (rIn * (val / (lum + 0.00001)),
       gIn * (val / (lum + 0.00001)),
       bIn * (val / (lum + 0.00001)))
  | Mode.MAXIMUM =>
    let lum := y_convert_max rIn gIn bIn
    let val := perlin_gain_value self rIn gIn bIn lum
    if self.clampwhites && self.clampblacks then
      (clamp (rIn * (val / (lum + 0.00001))) 0.0 1.0,
       clamp (gIn * (val / (lum + 0.00001))) 0.0 1.0,
       clamp (bIn * (val / (lum + 0.00001))) 0.0 1.0)
    else if self.clampwhites then
      let rValue := rIn * (val / (lum + 0.00001))
      let gValue := gIn * (val / (lum + 0.00001))
      let bValue := bIn * (val / (lum + 0.00001))
      (if rValue > 1.0 then 1.0 else rValue,
       if gValue > 1.0 then 1.0 else gValue,
       if bValue > 1.0 then 1.0 else bValue)
    else if self.clampblacks then
      let rValue := rIn * (val / (lum + 0.00001))
      let gValue := gIn * (val / (lum + 0.00001))
      let bValue := bIn * (val / (lum + 0.00001))
      (if rValue < 0.0 then 0.0 else rValue,
       if gValue < 0.0 then 0.0 else gValue,
       if bValue < 0.0 then 0.0 else bValue)
    else
      (rIn * (val / (lum + 0.00001)),
       gIn * (val / (lum + 0.00001)),
       bIn * (val / (lum + 0.00001)))

/-- The luminance function the `switch (mode)` of `pixel_engine` selects. -/
def luminance (mode : Mode) (r g b : α) : α :=
  match mode with
  | Mode.REC709 => y_convert_rec709 r g b
  | Mode.CCIR601 => y_convert_ccir601 r g b
  | Mode.AVERAGE => y_convert_avg r g b
  | Mode.MAXIMUM => y_convert_max r g b

/-- The factor `val/(lum+0.00001)` every channel is multiplied by. -/
def scale [Libm α] (self : sf_PerlinGainIop α) (r g b : α) : α :=
  perlin_gain_value self r g b (luminance self.mode r g b) /
    (luminance self.mode r g b + 0.00001)

end Kernel

/-! ## Rows, channels and the row loop -/

/-- Modelled from the spec: the host's channel-role classifier (`colourIndex` and
`brother` of DDImage, not part of the sources).  "Color index 0,1,2 = R,G,B; anything
else is non-color", and a colour channel belongs to one "color triple (R,G,B)":
`brother z k` is the channel with colour index `k` of the triple of `z`, so it has
colour index `k`, the brother of `z` at its own index is `z`, and brothers share their
brothers. -/
structure ChannelLayout (Chan : Type) where
  colourIndex : Chan → Nat
  brother : Chan → Nat → Chan
  colourIndex_brother : ∀ z k, colourIndex z < 3 → k < 3 → colourIndex (brother z k) = k
  brother_self : ∀ z, colourIndex z < 3 → brother z (colourIndex z) = z
  brother_brother : ∀ z j k, colourIndex z < 3 → j < 3 → k < 3 →
    brother (brother z j) k = brother z k

/-- A sample layout: channels are numbered in layers of four, `R G B A`
(`0 1 2 3`, `4 5 6 7`, ...); the fourth channel of a layer is not a colour. -/
def rgbaLayout : ChannelLayout Nat where
  colourIndex c := c % 4
  brother c k := c - c % 4 + k
  colourIndex_brother := by
    intro z k _ hk
    show (z - z % 4 + k) % 4 = k
    omega
  brother_self := by
    intro z _
    show z - z % 4 + z % 4 = z
    omega
  brother_brother := by
    intro z j k _ hj _
    show z - z % 4 + j - (z - z % 4 + j) % 4 + k = z - z % 4 + k
    omega

/-- Modelled from the spec: a `Row` of the host, "an ordered sequence of Pixels plus any
number of non-color channels": one sample per channel and horizontal position. -/
abbrev Row (Chan α : Type) : Type := Chan → Int → α

section RowModel

variable {Chan : Type} [DecidableEq Chan] {α : Type}

/-- The store `*p = v` through an output pointer that stands at position `i` of
channel `c` (`*rOut++ = rValue` and its two siblings). -/
def store (out : Row Chan α) (c : Chan) (i : Int) (v : α) : Row Chan α :=
  fun c2 i2 => if c2 = c ∧ i2 = i then v else out c2 i2

/-- Modelled from the spec: `out.copy(in, z, x, r)` of the host's `Row`; the spec says
the channel is copied "from input to output" unchanged, here on the positions
`x ≤ i < r` the call names. -/
def copy (out inp : Row Chan α) (z : Chan) (x r : Int) : Row Chan α :=
  fun c i => if c = z ∧ x ≤ i ∧ i < r then inp c i else out c i

variable [LinearOrderedField α] [Libm α]

/-- The `while (rIn < END)` loop of `pixel_engine`: `n` iterations are left and the
three input and the three output pointers stand at position `i`.  Each iteration reads
the three input samples, stores the three results in the order `r`, `g`, `b` and moves
on by one.  (The source repeats the loop under each `case`; `mode` does not change
while it runs, so the `switch` is taken inside `pixel_engine_pixel`.) -/
def pixel_loop (self : sf_PerlinGainIop α) (inp : Row Chan α) (rchan gchan bchan : Chan) :
    Nat → Int → Row Chan α → Row Chan α
  | 0, _, out => out
  | n + 1, i, out =>
    let p := pixel_engine_pixel self (inp rchan i) (inp gchan i) (inp bchan i)
    let out1 := store out rchan i p.1
    let out2 := store out1 gchan i p.2.1
    let out3 := store out2 bchan i p.2.2
    pixel_loop self inp rchan gchan bchan n (i + 1) out3

/-- The body of `foreach (z, channels)` in `pixel_engine` (source lines 157-435); the
state is the set `done` and the output row.  `END = rIn + (r - x)`, so the loop runs
`r - x` times, and not at all when `r ≤ x`. -/
def pixel_engine_step (L : ChannelLayout Chan) (self : sf_PerlinGainIop α)
    (inp : Row Chan α) (x r : Int) (st : List Chan × Row Chan α) (z : Chan) :
    List Chan × Row Chan α :=
  if z ∈ st.1 then
    st
  else if L.colourIndex z ≥ 3 then
    (st.1, copy st.2 inp z x r)
  else
    let rchan := L.brother z 0
    let gchan := L.brother z 1
    let bchan := L.brother z 2
    (bchan :: gchan :: rchan :: st.1,
      pixel_loop self inp rchan gchan bchan (r - x).toNat x st.2)

/-- Source lines 154-436: `pixel_engine(in, y, x, r, channels, out)`.  `channels` is
the requested set in the order `foreach` visits it; the result is the output row. -/
def pixel_engine (L : ChannelLayout Chan) (self : sf_PerlinGainIop α)
    (inp : Row Chan α) (_y x r : Int) (channels : List Chan) (out : Row Chan α) :
    Row Chan α :=
  (channels.foldl (pixel_engine_step L self inp x r) ([], out)).2

/-- What the row loop has established once the channels in `done` are processed:
`done` holds colour channels only and is closed under `brother`, and on the positions
`x ≤ i < r` the three output samples of a processed triple are the pixel step of its
three input samples. -/
def Processed (L : ChannelLayout Chan) (self : sf_PerlinGainIop α) (inp : Row Chan α)
    (x r : Int) (st : List Chan × Row Chan α) : Prop :=
  (∀ w ∈ st.1, L.colourIndex w < 3 ∧ ∀ k, k < 3 → L.brother w k ∈ st.1) ∧
  (∀ w ∈ st.1, ∀ i, x ≤ i → i < r →
    (st.2 (L.brother w 0) i, st.2 (L.brother w 1) i, st.2 (L.brother w 2) i) =
      pixel_engine_pixel self (inp (L.brother w 0) i) (inp (L.brother w 1) i)
        (inp (L.brother w 2) i))

end RowModel

/-! ## The declared output channels -/

section Validate

variable {α : Type} [LinearOrderedField α]

/-- Source lines 55-63: `_validate` hands `Mask_All` or `Mask_None` to
`set_out_channels`; the result is the set handed over.  The two host constants are
parameters, and the call of the base class `PixelIop::_validate` is the host's. -/
def _validate {S : Type} (maskAll maskNone : S) (self : sf_PerlinGainIop α)
    (_for_real : Bool) : S :=
  if self.gain ≠ 0.5 then maskAll else maskNone

/-- The host constant `Mask_All` of DDImage (not part of the sources): as a set of
channels, the one that holds every channel. -/
def Mask_All {Chan : Type} : Chan → Bool := fun _ => true

/-- The host constant `Mask_None` of DDImage (not part of the sources): the empty set
of channels. -/
def Mask_None {Chan : Type} : Chan → Bool := fun _ => false

end Validate

/-! ## The `float` type -/

section FloatModel

variable {α : Type} [LinearOrderedField α] [FloorRing α]

/-- Rounding to the nearest integer, a tie going to the even neighbour: the rounding
of IEEE 754 arithmetic that C's `float` and `double` operations use. -/
def roundEven (q : α) : ℤ :=
  if q - ⌊q⌋ < 1 / 2 then ⌊q⌋
  else if 1 / 2 < q - ⌊q⌋ then ⌊q⌋ + 1
  else if ⌊q⌋ % 2 = 0 then ⌊q⌋ else ⌊q⌋ + 1

/-- The number a binary floating-point format with `p` significand bits holds after `x`
is stored in it: `x` is rounded on the grid `2 ^ (e - (p - 1))` of its binade
`2 ^ e ≤ |x| < 2 ^ (e + 1)`.  The exponent range is not modelled (no overflow, no
subnormal numbers); the values used below are far from both. -/
def fround (p : ℕ) (x : α) : α :=
  if x = 0 then 0
  else (roundEven (x / 2 ^ (Int.log 2 |x| - ((p : ℤ) - 1))) : α) *
    2 ^ (Int.log 2 |x| - ((p : ℤ) - 1))

/-- The C type `float` (binary32, 24 significand bits): the value a `float` variable or
a `float` operation holds for the exact value `x`. -/
def f32 (x : α) : α := fround 24 x

/-- Source lines 96-99 once more, in the `float` arithmetic the source declares: the
literals `0.2125f`, `0.7154f`, `0.0721f` are the `float` numbers nearest to the decimals,
and each of the three products and two sums is rounded to `float`. -/
def y_convert_rec709_float (r g b : α) : α :=
  f32 (f32 (f32 (r * f32 0.2125) + f32 (g * f32 0.7154)) + f32 (b * f32 0.0721))

end FloatModel

section Checks

example : rgbaLayout.colourIndex 6 = 2 ∧ rgbaLayout.brother 6 0 = 4 := by decide
example : pixel_engine rgbaLayout ⟨(1 : ℝ), false, false, Mode.AVERAGE⟩
    (fun c i => (c : ℝ) + i) 0 0 2 [3] (fun _ _ => 0) 3 1 = 4 := by
  norm_num [pixel_engine, pixel_engine_step, copy, rgbaLayout]
example : y_convert_avg (0.2 : ℚ) 0.4 0.6 = 0.4 := by norm_num [y_convert_avg]
example : y_convert_max (0.2 : ℚ) 0.9 0.6 = 0.9 := by norm_num [y_convert_max]
example : clamp (1.7 : ℚ) 0 1 = 1 := by norm_num [clamp]
example :
    pixel_engine_pixel ⟨(1 : ℝ), false, false, Mode.AVERAGE⟩ 0.2 0.4 0.6 = (0, 0, 0) := by
  norm_num [pixel_engine_pixel, y_convert_avg, perlin_gain_value]

end Checks

/-! ## Shape of one pixel step -/

section Shape

variable {α : Type} [LinearOrderedField α]

theorem clamp_eq_min_max (a : α) : clamp a 0 1 = min (max a 0) 1 := by
  unfold clamp
  by_cases h : a < 0
  · have : max a 0 = 0 := max_eq_right h.le
    simp [h, this]
  · have h2 : (0 : α) ≤ a := not_lt.mp h
    rw [if_neg h, max_eq_left h2]
    by_cases h3 : a > 1
    · rw [if_pos h3, min_eq_right (le_of_lt h3)]
    · rw [if_neg h3, min_eq_left (not_lt.mp h3)]

theorem ite_gt_one_eq_min (a : α) : (if a > 1 then 1 else a) = min a 1 := by
  by_cases h : a > 1
  · rw [if_pos h, min_eq_right (le_of_lt h)]
  · rw [if_neg h, min_eq_left (not_lt.mp h)]

theorem ite_lt_zero_eq_max (a : α) : (if a < 0 then 0 else a) = max a 0 := by
  by_cases h : a < 0
  · rw [if_pos h, max_eq_right (le_of_lt h)]
  · rw [if_neg h, max_eq_left (not_lt.mp h)]

variable [Libm α]

/-- All four `case` bodies of `pixel_engine` compute the same thing up to the luminance
helper they call: the three products by `scale`, then the clamp branch. -/
theorem pixel_engine_pixel_eq (self : sf_PerlinGainIop α) (r g b : α) :
    pixel_engine_pixel self r g b =
      if self.clampwhites && self.clampblacks then
        (clamp (r * scale self r g b) 0 1, clamp (g * scale self r g b) 0 1,
         clamp (b * scale self r g b) 0 1)
      else if self.clampwhites then
        (if r * scale self r g b > 1 then 1 else r * scale self r g b,
         if g * scale self r g b > 1 then 1 else g * scale self r g b,
         if b * scale self r g b > 1 then 1 else b * scale self r g b)
      else if self.clampblacks then
        (if r * scale self r g b < 0 then 0 else r * scale self r g b,
         if g * scale self r g b < 0 then 0 else g * scale self r g b,
         if b * scale self r g b < 0 then 0 else b * scale self r g b)
      else
        (r * scale self r g b, g * scale self r g b, b * scale self r g b) := by
  have h0 : (0.0 : α) = 0 := by norm_num
  have h1 : (1.0 : α) = 1 := by norm_num
  obtain ⟨gain, cw, cb, mode⟩ := self
  cases mode <;> simp only [pixel_engine_pixel, scale, luminance, h0, h1]

/-- With `1 - gain ≤ 0` neither branch of the curve reaches its libm call. -/
theorem perlin_gain_value_of_gain_ge_one (self : sf_PerlinGainIop α)
    (h : 1 - self.gain ≤ 0) (r g b lum : α) :
    perlin_gain_value self r g b lum = if lum < 0.5 then 0 else 1 := by
  unfold perlin_gain_value
  have hn : ¬ (1 - self.gain > 0) := not_lt.mpr h
  by_cases hl : lum < 0.5
  · simp [hl, hn]
  · simp only [hl, hn, if_false]
    norm_num

end Shape

/-! ## The curve over the reals -/

section RealCurve

theorem realLibm_powf (x y : ℝ) : (Libm.powf x y : ℝ) = x ^ y := rfl

theorem realLibm_logf (x : ℝ) : (Libm.logf x : ℝ) = Real.log x := rfl

theorem log_half_neg : Real.log (0.5 : ℝ) < 0 :=
  Real.log_neg (by norm_num) (by norm_num)

/-- The exponent `logf(1-gain)/logf(0.5)` is non-negative for `gain` in `[0,1)`. -/
theorem exponent_nonneg {gain : ℝ} (h0 : 0 ≤ gain) (h1 : gain < 1) :
    0 ≤ Real.log (1 - gain) / Real.log 0.5 :=
  div_nonneg_of_nonpos (Real.log_nonpos (by linarith) (by linarith)) log_half_neg.le

/-- The exponent is positive for `gain` in `(0,1)`. -/
theorem exponent_pos {gain : ℝ} (h0 : 0 < gain) (h1 : gain < 1) :
    0 < Real.log (1 - gain) / Real.log 0.5 :=
  div_pos_of_neg_of_neg (Real.log_neg (by linarith) (by linarith)) log_half_neg

/-- The exponent grows with the gain. -/
theorem exponent_mono {g1 g2 : ℝ} (h : g1 ≤ g2) (h2 : g2 < 1) :
    Real.log (1 - g1) / Real.log 0.5 ≤ Real.log (1 - g2) / Real.log 0.5 :=
  div_le_div_of_nonpos_of_le log_half_neg.le
    (Real.log_le_log (by linarith) (by linarith))

/-- At `gain = 0.5` the exponent is `1`. -/
theorem exponent_half : Real.log (1 - 0.5) / Real.log (0.5 : ℝ) = 1 := by
  have h : (1 : ℝ) - 0.5 = 0.5 := by norm_num
  rw [h]
  exact div_self (ne_of_lt log_half_neg)

/-- The lower branch of the curve for `gain < 1`. -/
theorem perlin_gain_value_low (self : sf_PerlinGainIop ℝ) (h : self.gain < 1)
    (r g b lum : ℝ) (hl : lum < 0.5) :
    perlin_gain_value self r g b lum =
      (2 * lum) ^ (Real.log (1 - self.gain) / Real.log 0.5) * 0.5 := by
  have hg : 1 - self.gain > 0 := by linarith
  simp only [perlin_gain_value, if_pos hl, if_pos hg, realLibm_powf, realLibm_logf]

/-- The upper branch of the curve for `gain < 1`. -/
theorem perlin_gain_value_high (self : sf_PerlinGainIop ℝ) (h : self.gain < 1)
    (r g b lum : ℝ) (hl : 0.5 ≤ lum) :
    perlin_gain_value self r g b lum =
      (2 - (2 - 2 * lum) ^ (Real.log (1 - self.gain) / Real.log 0.5)) * 0.5 := by
  have hg : 1 - self.gain > 0 := by linarith
  simp only [perlin_gain_value, if_neg (not_lt.mpr hl), if_pos hg, realLibm_powf,
    realLibm_logf]

/-- The curve at `gain = 0.5`, whatever the other members are. -/
theorem perlin_gain_value_half (cw cb : Bool) (mode : Mode) (r g b lum : ℝ) :
    perlin_gain_value ⟨0.5, cw, cb, mode⟩ r g b lum = lum := by
  have hg : (0.5 : ℝ) < 1 := by norm_num
  by_cases hl : lum < 0.5
  · rw [perlin_gain_value_low ⟨0.5, cw, cb, mode⟩ hg r g b lum hl]
    simp only [exponent_half, Real.rpow_one]
    ring
  · rw [perlin_gain_value_high ⟨0.5, cw, cb, mode⟩ hg r g b lum (not_lt.mp hl)]
    simp only [exponent_half, Real.rpow_one]
    ring

/-- Range of the curve: below the midpoint it stays in `[0, 0.5]`, from the midpoint
on in `[0.5, 1]`. -/
theorem perlin_gain_value_range (self : sf_PerlinGainIop ℝ) (h0 : 0 ≤ self.gain)
    (h1 : self.gain ≤ 1) (r g b lum : ℝ) (hl0 : 0 ≤ lum) (hl1 : lum ≤ 1) :
    (lum < 0.5 → 0 ≤ perlin_gain_value self r g b lum ∧
        perlin_gain_value self r g b lum ≤ 0.5) ∧
    (0.5 ≤ lum → 0.5 ≤ perlin_gain_value self r g b lum ∧
        perlin_gain_value self r g b lum ≤ 1) := by
  rcases lt_or_eq_of_le h1 with hlt | heq
  · have he := exponent_nonneg h0 hlt
    constructor
    · intro hl
      rw [perlin_gain_value_low self hlt r g b lum hl]
      have hx0 : (0 : ℝ) ≤ 2 * lum := by linarith
      have hx1 : 2 * lum ≤ 1 := by
        have : lum ≤ 0.5 := hl.le
        norm_num at this ⊢
        linarith
      have p0 := Real.rpow_nonneg hx0 (Real.log (1 - self.gain) / Real.log 0.5)
      have p1 := Real.rpow_le_one hx0 hx1 he
      constructor
      · positivity
      · norm_num
        linarith
    · intro hl
      rw [perlin_gain_value_high self hlt r g b lum hl]
      have hx0 : (0 : ℝ) ≤ 2 - 2 * lum := by linarith
      have hx1 : 2 - 2 * lum ≤ 1 := by
        norm_num at hl
        linarith
      have p0 := Real.rpow_nonneg hx0 (Real.log (1 - self.gain) / Real.log 0.5)
      have p1 := Real.rpow_le_one hx0 hx1 he
      constructor <;> norm_num <;> linarith
  · have hge : 1 - self.gain ≤ 0 := by linarith
    rw [perlin_gain_value_of_gain_ge_one self hge]
    constructor
    · intro hl
      rw [if_pos hl]
      norm_num
    · intro hl
      rw [if_neg (not_lt.mpr hl)]
      norm_num

end RealCurve

/-! ## Luminance helpers -/

section Luminance

variable {α : Type} [LinearOrderedField α]

theorem y_convert_max_eq (r g b : α) : y_convert_max r g b = max (max r g) b := by
  unfold y_convert_max
  have h1 : (if g > r then g else r) = max r g := by
    by_cases h : g > r
    · rw [if_pos h, max_eq_right (le_of_lt h)]
    · rw [if_neg h, max_eq_left (not_lt.mp h)]
  simp only [h1]
  by_cases h : b > max r g
  · rw [if_pos h, max_eq_right (le_of_lt h)]
  · rw [if_neg h, max_eq_left (not_lt.mp h)]

/-- Every channel of a non-negative pixel is at most `luminance / 0.0721`, in every
mode (`0.0721` is the smallest weight used). -/
theorem luminance_weight_le (mode : Mode) {r g b : α} (hr : 0 ≤ r) (hg : 0 ≤ g)
    (hb : 0 ≤ b) :
    0.0721 * r ≤ luminance mode r g b ∧ 0.0721 * g ≤ luminance mode r g b ∧
      0.0721 * b ≤ luminance mode r g b := by
  cases mode
  · simp only [luminance, y_convert_rec709]
    norm_num
    refine ⟨?_, ?_, ?_⟩ <;> linarith
  · simp only [luminance, y_convert_ccir601]
    norm_num
    refine ⟨?_, ?_, ?_⟩ <;> linarith
  · simp only [luminance, y_convert_avg]
    norm_num
    refine ⟨?_, ?_, ?_⟩ <;> linarith
  · simp only [luminance, y_convert_max_eq]
    have h1 : r ≤ max (max r g) b := le_trans (le_max_left r g) (le_max_left _ b)
    have h2 : g ≤ max (max r g) b := le_trans (le_max_right r g) (le_max_left _ b)
    have h3 : b ≤ max (max r g) b := le_max_right _ b
    have k : (0.0721 : α) ≤ 1 := by norm_num
    exact ⟨le_trans (mul_le_of_le_one_left hr k) h1,
      le_trans (mul_le_of_le_one_left hg k) h2, le_trans (mul_le_of_le_one_left hb k) h3⟩

/-- Multiplying a channel `c ≥ 0` by `L/(L+0.00001)` lowers it by less than `0.00014`
when `0.0721 * c ≤ L`. -/
theorem scaled_channel_near {c L : α} (hc : 0 ≤ c) (hL : 0.0721 * c ≤ L) :
    c - 0.00014 < c * (L / (L + 0.00001)) ∧ c * (L / (L + 0.00001)) ≤ c := by
  have hL0 : 0 ≤ L := le_trans (by positivity) hL
  have hpos : (0 : α) < L + 0.00001 := by
    have : (0 : α) < 0.00001 := by norm_num
    linarith
  rw [← mul_div_assoc, lt_div_iff₀ hpos, div_le_iff₀ hpos]
  have e1 : (c - 0.00014) * (L + 0.00001) =
      c * L + (0.00001 * c - 0.00014 * L) - 0.00014 * 0.00001 := by ring
  have e2 : c * (L + 0.00001) = c * L + 0.00001 * c := by ring
  have e3 : (0.00014 : α) * (0.0721 * c) ≤ 0.00014 * L :=
    mul_le_mul_of_nonneg_left hL (by norm_num)
  have e4 : (0 : α) < 0.00014 * 0.00001 := by norm_num
  have e5 : (0.00014 : α) * (0.0721 * c) = 0.00001 * c + 0.000000094 * c := by ring
  have e6 : (0 : α) ≤ 0.000000094 * c := by positivity
  have e7 : (0 : α) ≤ 0.00001 * c := by positivity
  constructor
  · rw [e1]; linarith
  · rw [e2]; linarith

end Luminance

section PixelShape

variable {α : Type} [LinearOrderedField α] [Libm α]

/-- With both clamp flags off the three samples are multiplied by `scale`. -/
theorem pixel_engine_pixel_off (gain : α) (mode : Mode) (r g b : α) :
    pixel_engine_pixel ⟨gain, false, false, mode⟩ r g b =
      (r * scale ⟨gain, false, false, mode⟩ r g b,
       g * scale ⟨gain, false, false, mode⟩ r g b,
       b * scale ⟨gain, false, false, mode⟩ r g b) := by
  rw [pixel_engine_pixel_eq]
  simp

/-- The factor does not depend on the clamp flags. -/
theorem scale_flags (gain : α) (cw cb : Bool) (mode : Mode) (r g b : α) :
    scale ⟨gain, cw, cb, mode⟩ r g b = scale ⟨gain, false, false, mode⟩ r g b := rfl

end PixelShape

/-- At `gain = 0.5` the factor is `lum/(lum+0.00001)`. -/
theorem scale_half (cw cb : Bool) (mode : Mode) (r g b : ℝ) :
    scale ⟨0.5, cw, cb, mode⟩ r g b =
      luminance mode r g b / (luminance mode r g b + 0.00001) := by
  simp only [scale, perlin_gain_value_half]

/-- At `gain = 0.75` the exponent is `2`. -/
theorem exponent_three_quarters : Real.log (1 - 0.75) / Real.log (0.5 : ℝ) = 2 := by
  have h : (1 : ℝ) - 0.75 = 0.5 ^ 2 := by norm_num
  rw [h, Real.log_pow]
  have hne : Real.log (0.5 : ℝ) ≠ 0 := ne_of_lt log_half_neg
  field_simp

/-! ## Storing a value in a `float` -/

section FloatLemmas

variable {α : Type} [LinearOrderedField α] [FloorRing α]

/-- A number within less than `1/2` of an integer rounds to it. -/
theorem roundEven_near (q : α) (n : ℤ) (h : |q - n| < 1 / 2) : roundEven q = n := by
  rw [abs_lt] at h
  obtain ⟨h1, h2⟩ := h
  unfold roundEven
  by_cases hq : (n : α) ≤ q
  · have hf : ⌊q⌋ = n := Int.floor_eq_iff.mpr ⟨hq, by linarith⟩
    rw [hf, if_pos (by linarith)]
  · have hq2 : q < n := not_le.mp hq
    have hf : ⌊q⌋ = n - 1 := Int.floor_eq_iff.mpr ⟨by push_cast; linarith, by push_cast; linarith⟩
    rw [hf]
    have e1 : ¬ (q - ((n - 1 : ℤ) : α) < 1 / 2) := by push_cast; linarith
    have e2 : 1 / 2 < q - ((n - 1 : ℤ) : α) := by push_cast; linarith
    rw [if_neg e1, if_pos e2]
    ring

/-- A number halfway above an even integer rounds down to it. -/
theorem roundEven_tie_even (q : α) (n : ℤ) (hn : n % 2 = 0) (h : q = n + 1 / 2) :
    roundEven q = n := by
  have hf : ⌊q⌋ = n := Int.floor_eq_iff.mpr ⟨by rw [h]; linarith, by rw [h]; linarith⟩
  unfold roundEven
  rw [hf]
  have e1 : ¬ (q - (n : α) < 1 / 2) := by rw [h]; simp
  have e2 : ¬ (1 / 2 < q - (n : α)) := by rw [h]; simp
  rw [if_neg e1, if_neg e2, if_pos hn]

/-- Evaluation of `fround` from the binade of `x` and the rounded significand. -/
theorem fround_eq (p : ℕ) (x : α) (e n : ℤ) (h1 : (2 : α) ^ e ≤ |x|)
    (h2 : |x| < (2 : α) ^ (e + 1))
    (hn : roundEven (x / 2 ^ (e - ((p : ℤ) - 1))) = n) :
    fround p x = n * 2 ^ (e - ((p : ℤ) - 1)) := by
  have hpos : 0 < |x| := lt_of_lt_of_le (by positivity) h1
  have hx : x ≠ 0 := abs_pos.mp hpos
  have hlog : Int.log 2 |x| = e := by
    apply le_antisymm
    · have := (Int.lt_zpow_iff_log_lt (by norm_num : 1 < 2) hpos).mp (by exact_mod_cast h2)
      omega
    · exact (Int.zpow_le_iff_le_log (by norm_num : 1 < 2) hpos).mp (by exact_mod_cast h1)
  unfold fround
  rw [if_neg hx, hlog, hn]

/-- Evaluation of `f32` away from a tie. -/
theorem f32_eval (x : α) (e n : ℤ) (v : α) (h1 : (2 : α) ^ e ≤ |x|)
    (h2 : |x| < (2 : α) ^ (e + 1)) (hn : |x / 2 ^ (e - 23) - n| < 1 / 2)
    (hv : (n : α) * 2 ^ (e - 23) = v) : f32 x = v := by
  unfold f32
  rw [fround_eq 24 x e n h1 h2 (roundEven_near _ _ (by simpa using hn))]
  simpa using hv

/-- Evaluation of `f32` at a tie above an even significand. -/
theorem f32_eval_tie (x : α) (e n : ℤ) (v : α) (h1 : (2 : α) ^ e ≤ |x|)
    (h2 : |x| < (2 : α) ^ (e + 1)) (hn : n % 2 = 0) (ht : x / 2 ^ (e - 23) = n + 1 / 2)
    (hv : (n : α) * 2 ^ (e - 23) = v) : f32 x = v := by
  unfold f32
  rw [fround_eq 24 x e n h1 h2 (roundEven_tie_even _ _ hn (by simpa using ht))]
  simpa using hv

/-- Rounding does not pass an integer bound. -/
theorem roundEven_le (q : α) (n : ℤ) (h : q ≤ n) : roundEven q ≤ n := by
  have hf : ⌊q⌋ ≤ n := by
    have := Int.floor_le q
    have h2 : ((⌊q⌋ : ℤ) : α) ≤ n := le_trans this h
    exact_mod_cast h2
  unfold roundEven
  rcases lt_or_eq_of_le hf with hlt | heq
  · split_ifs <;> omega
  · have e1 : q - ((⌊q⌋ : ℤ) : α) < 1 / 2 := by
      rw [heq]
      have : q - (n : α) ≤ 0 := by linarith
      linarith
    rw [if_pos e1]
    exact hf

/-- For a gain in `(0, 2^-25)` the difference `1 - gain` narrows to the `float` `1`. -/
theorem f32_one_sub_small {g : α} (h0 : 0 < g) (h1 : g < 1 / 2 ^ 25) : f32 (1 - g) = 1 := by
  have hb : (1 : α) / 2 ^ 25 < 1 / 2 := by norm_num
  have hx : (0 : α) < 1 - g := by linarith
  apply f32_eval (1 - g) (-1) 16777216 1
  · rw [abs_of_pos hx]
    norm_num
    linarith
  · rw [abs_of_pos hx]
    norm_num
    linarith
  · rw [abs_lt]
    norm_num at h1 ⊢
    constructor <;> linarith
  · norm_num

/-- For a gain in `[2^-24, 1)` the difference `1 - gain` stays below `1` as a `float`. -/
theorem f32_one_sub_lt_one {g : α} (h0 : 1 / 2 ^ 24 ≤ g) (h1 : g < 1) : f32 (1 - g) < 1 := by
  have hx : (0 : α) < 1 - g := by linarith
  have hne : (1 - g : α) ≠ 0 := ne_of_gt hx
  have habs : |1 - g| = 1 - g := abs_of_pos hx
  have hlo : (2 : α) ^ Int.log 2 (1 - g) ≤ 1 - g := by
    have := Int.zpow_log_le_self (by norm_num : 1 < 2) hx
    exact_mod_cast this
  have hhi : 1 - g < (2 : α) ^ (Int.log 2 (1 - g) + 1) := by
    have := Int.lt_zpow_succ_log_self (by norm_num : 1 < 2) (1 - g)
    exact_mod_cast this
  have hneg : Int.log 2 (1 - g) < 0 := by
    apply (Int.lt_zpow_iff_log_lt (by norm_num : 1 < 2) hx).mp
    simp
    linarith
  unfold f32 fround
  rw [if_neg hne, habs]
  generalize Int.log 2 (1 - g) = e at hlo hhi hneg
  have hs : (0 : α) < 2 ^ (e - ((24 : ℕ) - 1 : ℤ)) := by positivity
  rcases eq_or_lt_of_le (Int.le_sub_one_of_lt hneg) with he | he
  · have he1 : e = -1 := by omega
    subst he1
    have hq : (1 - g) / 2 ^ ((-1 : ℤ) - ((24 : ℕ) - 1 : ℤ)) ≤ ((16777215 : ℤ) : α) := by
      rw [div_le_iff₀ hs]
      norm_num at h0 ⊢
      linarith
    have hr := roundEven_le _ _ hq
    have hr2 : ((roundEven ((1 - g) / 2 ^ ((-1 : ℤ) - ((24 : ℕ) - 1 : ℤ))) : ℤ) : α) ≤ 16777215 := by
      exact_mod_cast hr
    calc ((roundEven ((1 - g) / 2 ^ ((-1 : ℤ) - ((24 : ℕ) - 1 : ℤ))) : ℤ) : α) *
          2 ^ ((-1 : ℤ) - ((24 : ℕ) - 1 : ℤ))
        ≤ 16777215 * 2 ^ ((-1 : ℤ) - ((24 : ℕ) - 1 : ℤ)) :=
          mul_le_mul_of_nonneg_right hr2 (le_of_lt hs)
      _ < 1 := by norm_num
  · have he2 : e + 1 ≤ -1 := by omega
    have hsplit : (2 : α) ^ (e + 1) = 16777216 * 2 ^ (e - ((24 : ℕ) - 1 : ℤ)) := by
      have : e + 1 = 24 + (e - ((24 : ℕ) - 1 : ℤ)) := by push_cast; ring
      rw [this, zpow_add₀ (by norm_num : (2 : α) ≠ 0)]
      norm_num
    have hq : (1 - g) / 2 ^ (e - ((24 : ℕ) - 1 : ℤ)) ≤ ((16777216 : ℤ) : α) := by
      rw [div_le_iff₀ hs]
      have h3 := le_of_lt hhi
      rw [hsplit] at h3
      exact_mod_cast h3
    have hr := roundEven_le _ _ hq
    have hr2 : ((roundEven ((1 - g) / 2 ^ (e - ((24 : ℕ) - 1 : ℤ))) : ℤ) : α) ≤ 16777216 := by
      exact_mod_cast hr
    have hpow : (2 : α) ^ (e + 1) ≤ 2 ^ (-1 : ℤ) :=
      zpow_le_zpow_right₀ (by norm_num) he2
    calc ((roundEven ((1 - g) / 2 ^ (e - ((24 : ℕ) - 1 : ℤ))) : ℤ) : α) *
          2 ^ (e - ((24 : ℕ) - 1 : ℤ))
        ≤ 16777216 * 2 ^ (e - ((24 : ℕ) - 1 : ℤ)) :=
          mul_le_mul_of_nonneg_right hr2 (le_of_lt hs)
      _ = 2 ^ (e + 1) := hsplit.symm
      _ ≤ 2 ^ (-1 : ℤ) := hpow
      _ < 1 := by norm_num

/-- The `float` evaluation of `y_convert_rec709` on the grey pixel `(0.5, 0.5, 0.5)`:
the sum of the first two products is a tie and goes to the even neighbour. -/
theorem y_convert_rec709_float_half :
    y_convert_rec709_float (0.5 : α) 0.5 0.5 = 16777215 / 33554432 := by
  have w1 : f32 (0.2125 : α) = 7130317 / 33554432 :=
    f32_eval _ (-3) 14260634 _ (by norm_num [abs_of_pos]) (by norm_num [abs_of_pos])
      (by norm_num [abs_lt]) (by norm_num)
  have w2 : f32 (0.7154 : α) = 3000605 / 4194304 :=
    f32_eval _ (-1) 12002420 _ (by norm_num [abs_of_pos]) (by norm_num [abs_of_pos])
      (by norm_num [abs_lt]) (by norm_num)
  have w3 : f32 (0.0721 : α) = 4838549 / 67108864 :=
    f32_eval _ (-4) 9677098 _ (by norm_num [abs_of_pos]) (by norm_num [abs_of_pos])
      (by norm_num [abs_lt]) (by norm_num)
  have p1 : f32 ((0.5 : α) * (7130317 / 33554432)) = 7130317 / 67108864 :=
    f32_eval _ (-4) 14260634 _ (by norm_num [abs_of_pos]) (by norm_num [abs_of_pos])
      (by norm_num [abs_lt]) (by norm_num)
  have p2 : f32 ((0.5 : α) * (3000605 / 4194304)) = 3000605 / 8388608 :=
    f32_eval _ (-2) 12002420 _ (by norm_num [abs_of_pos]) (by norm_num [abs_of_pos])
      (by norm_num [abs_lt]) (by norm_num)
  have p3 : f32 ((0.5 : α) * (4838549 / 67108864)) = 4838549 / 134217728 :=
    f32_eval _ (-5) 9677098 _ (by norm_num [abs_of_pos]) (by norm_num [abs_of_pos])
      (by norm_num [abs_lt]) (by norm_num)
  have s1 : f32 ((7130317 / 67108864 : α) + 3000605 / 8388608) = 7783789 / 16777216 :=
    f32_eval_tie _ (-2) 15567578 _ (by norm_num [abs_of_pos]) (by norm_num [abs_of_pos])
      (by norm_num) (by norm_num) (by norm_num)
  have s2 : f32 ((7783789 / 16777216 : α) + 4838549 / 134217728) = 16777215 / 33554432 :=
    f32_eval _ (-2) 16777215 _ (by norm_num [abs_of_pos]) (by norm_num [abs_of_pos])
      (by norm_num [abs_lt]) (by norm_num)
  unfold y_convert_rec709_float
  rw [w1, w2, w3, p1, p2, p3, s1, s2]

end FloatLemmas

/-! ## The claims -/

/-- C1 (as amended): at `gain = 0.5` with both clamp flags off, in every luminance mode
and for every pixel with `r, g, b ≥ 0`, each output channel is the input channel times
`lum/(lum+0.00001)`; it never exceeds the input channel and falls short of it by less
than `0.00014`.  The output is the input up to that tolerance, not exactly. -/
theorem gain_half_pixel_near_identity (mode : Mode) (r g b : ℝ) (hr : 0 ≤ r)
    (hg : 0 ≤ g) (hb : 0 ≤ b) :
    pixel_engine_pixel ⟨0.5, false, false, mode⟩ r g b =
        (r * (luminance mode r g b / (luminance mode r g b + 0.00001)),
         g * (luminance mode r g b / (luminance mode r g b + 0.00001)),
         b * (luminance mode r g b / (luminance mode r g b + 0.00001))) ∧
      (r - 0.00014 < (pixel_engine_pixel ⟨0.5, false, false, mode⟩ r g b).1 ∧
        (pixel_engine_pixel ⟨0.5, false, false, mode⟩ r g b).1 ≤ r) ∧
      (g - 0.00014 < (pixel_engine_pixel ⟨0.5, false, false, mode⟩ r g b).2.1 ∧
        (pixel_engine_pixel ⟨0.5, false, false, mode⟩ r g b).2.1 ≤ g) ∧
      (b - 0.00014 < (pixel_engine_pixel ⟨0.5, false, false, mode⟩ r g b).2.2 ∧
        (pixel_engine_pixel ⟨0.5, false, false, mode⟩ r g b).2.2 ≤ b) := by
  obtain ⟨wr, wg, wb⟩ := luminance_weight_le mode hr hg hb
  rw [pixel_engine_pixel_off, scale_half]
  exact ⟨rfl, scaled_channel_near hr wr, scaled_channel_near hg wg,
    scaled_channel_near hb wb⟩

/-- C1, the claim as stated fails: at `gain = 0.5`, mode Rec709, clamps off, the
spec's own pixel `(1.4, 0.9, 0.3)` has luminance `0.96299` and comes out as
`(1.4, 0.9, 0.3)` times `0.96299/0.963`, which is not the input. -/
theorem gain_half_pixel_not_exact :
    luminance Mode.REC709 (1.4 : ℝ) 0.9 0.3 = 0.96299 ∧
      pixel_engine_pixel ⟨(0.5 : ℝ), false, false, Mode.REC709⟩ 1.4 0.9 0.3 =
        (1.4 * (0.96299 / 0.963), 0.9 * (0.96299 / 0.963), 0.3 * (0.96299 / 0.963)) ∧
      pixel_engine_pixel ⟨(0.5 : ℝ), false, false, Mode.REC709⟩ 1.4 0.9 0.3 ≠
        (1.4, 0.9, 0.3) := by
  have hL : luminance Mode.REC709 (1.4 : ℝ) 0.9 0.3 = 0.96299 := by
    norm_num [luminance, y_convert_rec709]
  have hP : pixel_engine_pixel ⟨(0.5 : ℝ), false, false, Mode.REC709⟩ 1.4 0.9 0.3 =
      (1.4 * (0.96299 / 0.963), 0.9 * (0.96299 / 0.963), 0.3 * (0.96299 / 0.963)) := by
    rw [pixel_engine_pixel_off, scale_half, hL]
    norm_num
  refine ⟨hL, hP, ?_⟩
  rw [hP]
  intro h
  have h1 := congrArg Prod.fst h
  norm_num at h1

/-- Witness for C1 (as amended): the pixel `(1.4, 0.9, 0.3)` in mode Average. -/
theorem gain_half_pixel_near_identity_witness :
    ((0 : ℝ) ≤ 1.4 ∧ (0 : ℝ) ≤ 0.9 ∧ (0 : ℝ) ≤ 0.3) ∧
      (1.4 - 0.00014 <
          (pixel_engine_pixel ⟨(0.5 : ℝ), false, false, Mode.AVERAGE⟩ 1.4 0.9 0.3).1 ∧
        (pixel_engine_pixel ⟨(0.5 : ℝ), false, false, Mode.AVERAGE⟩ 1.4 0.9 0.3).1 ≤ 1.4) :=
  ⟨⟨by norm_num, by norm_num, by norm_num⟩,
    (gain_half_pixel_near_identity Mode.AVERAGE 1.4 0.9 0.3 (by norm_num) (by norm_num)
      (by norm_num)).2.1⟩

/-- C2: with `gain = 0.5` the exponent `logf(1-gain)/logf(0.5)` is `1` and
`perlin_gain_value` returns `lum` itself, for every luminance value `lum` (both
branches) and whatever the other members and the pixel are. -/
theorem gain_half_curve_identity (cw cb : Bool) (mode : Mode) (r g b lum : ℝ) :
    Libm.logf (1 - (0.5 : ℝ)) / Libm.logf (0.5 : ℝ) = 1 ∧
      perlin_gain_value ⟨0.5, cw, cb, mode⟩ r g b lum = lum :=
  ⟨exponent_half, perlin_gain_value_half cw cb mode r g b lum⟩

/-- C3 (as amended): for every gain with `2^-24 ≤ gain < 1`, `perlin_gain_value` maps
`lum = 0` to `0` and `lum = 1` to `1`.  These are the gains whose `1 - gain` is still
below `1` after the source narrows it to `float` for `logf`, so that the exponent is
positive; a smaller positive gain can be narrowed to `1.0f` (see `f32_one_sub_small`)
and then behaves as gain `0`. -/
theorem curve_pinned_endpoints (self : sf_PerlinGainIop ℝ) (h0 : 1 / 2 ^ 24 ≤ self.gain)
    (h1 : self.gain < 1) (r g b : ℝ) :
    f32 (1 - self.gain) < 1 ∧
      perlin_gain_value self r g b 0 = 0 ∧ perlin_gain_value self r g b 1 = 1 := by
  have hpos : 0 < self.gain := lt_of_lt_of_le (by norm_num) h0
  have he : Real.log (1 - self.gain) / Real.log 0.5 ≠ 0 := ne_of_gt (exponent_pos hpos h1)
  refine ⟨f32_one_sub_lt_one h0 h1, ?_, ?_⟩
  · rw [perlin_gain_value_low self h1 r g b 0 (by norm_num)]
    rw [mul_zero, Real.zero_rpow he, zero_mul]
  · rw [perlin_gain_value_high self h1 r g b 1 (by norm_num)]
    have h2 : (2 : ℝ) - 2 * 1 = 0 := by norm_num
    rw [h2, Real.zero_rpow he]
    norm_num

/-- C3, the claim as stated fails at `gain = 0`, which it includes: the exponent is
then `0`, `powf(0, 0) = 1`, and both `lum = 0` and `lum = 1` are mapped to `0.5`. -/
theorem curve_unpinned_at_gain_zero :
    perlin_gain_value ⟨(0 : ℝ), false, false, Mode.REC709⟩ 0 0 0 0 = 0.5 ∧
      perlin_gain_value ⟨(0 : ℝ), false, false, Mode.REC709⟩ 1 1 1 1 = 0.5 ∧
      perlin_gain_value ⟨(0 : ℝ), false, false, Mode.REC709⟩ 0 0 0 0 ≠ 0 ∧
      perlin_gain_value ⟨(0 : ℝ), false, false, Mode.REC709⟩ 1 1 1 1 ≠ 1 := by
  have a : perlin_gain_value ⟨(0 : ℝ), false, false, Mode.REC709⟩ 0 0 0 0 = 0.5 := by
    rw [perlin_gain_value_low _ (by norm_num) 0 0 0 0 (by norm_num)]
    norm_num
  have b : perlin_gain_value ⟨(0 : ℝ), false, false, Mode.REC709⟩ 1 1 1 1 = 0.5 := by
    rw [perlin_gain_value_high _ (by norm_num) 1 1 1 1 (by norm_num)]
    norm_num
  refine ⟨a, b, ?_, ?_⟩
  · rw [a]; norm_num
  · rw [b]; norm_num

/-- Witness for C3 (as amended): `gain = 0.25`. -/
theorem curve_pinned_endpoints_witness :
    ((1 : ℝ) / 2 ^ 24 ≤ 0.25 ∧ (0.25 : ℝ) < 1) ∧
      perlin_gain_value ⟨(0.25 : ℝ), false, false, Mode.REC709⟩ 0 0 0 0 = 0 ∧
      perlin_gain_value ⟨(0.25 : ℝ), false, false, Mode.REC709⟩ 1 1 1 1 = 1 :=
  ⟨⟨by norm_num, by norm_num⟩,
    (curve_pinned_endpoints ⟨0.25, false, false, Mode.REC709⟩ (by norm_num) (by norm_num)
      0 0 0).2.1,
    (curve_pinned_endpoints ⟨0.25, false, false, Mode.REC709⟩ (by norm_num) (by norm_num)
      1 1 1).2.2⟩

/-- C4 (as amended): for every fixed luminance `lum` in `[0.5, 1]` and all gains
`g1 ≤ g2` in `[0,1]`, `perlin_gain_value(lum)` under gain `g1` is at most
`perlin_gain_value(lum)` under gain `g2`. -/
theorem curve_mono_in_gain_upper_half (s1 s2 : sf_PerlinGainIop ℝ) (h0 : 0 ≤ s1.gain)
    (h12 : s1.gain ≤ s2.gain) (h1 : s2.gain ≤ 1) (r g b lum : ℝ) (hl : 0.5 ≤ lum)
    (hu : lum ≤ 1) :
    perlin_gain_value s1 r g b lum ≤ perlin_gain_value s2 r g b lum := by
  have hl0 : 0 ≤ lum := le_trans (by norm_num) hl
  rcases lt_or_eq_of_le h1 with hlt | heq
  · have hlt1 : s1.gain < 1 := lt_of_le_of_lt h12 hlt
    rw [perlin_gain_value_high s1 hlt1 r g b lum hl,
      perlin_gain_value_high s2 hlt r g b lum hl]
    have hx0 : (0 : ℝ) ≤ 2 - 2 * lum := by linarith
    have hx1 : 2 - 2 * lum ≤ 1 := by
      norm_num at hl
      linarith
    have hp := Real.rpow_le_rpow_of_exponent_ge' hx0 hx1 (exponent_nonneg h0 hlt1)
      (exponent_mono h12 hlt)
    norm_num
    linarith
  · have hge : 1 - s2.gain ≤ 0 := by linarith
    rw [perlin_gain_value_of_gain_ge_one s2 hge, if_neg (not_lt.mpr hl)]
    exact ((perlin_gain_value_range s1 h0 (le_trans h12 h1) r g b lum hl0 hu).2 hl).2

/-- C4, the claim as stated fails below the midpoint: at `lum = 0.25` the gains
`0.5 ≤ 0.75` give `0.25` and `0.125`, so the larger gain gives the smaller value. -/
theorem curve_not_mono_in_gain_lower_half :
    ((0 : ℝ) ≤ 0.25 ∧ (0.25 : ℝ) ≤ 1 ∧ (0 : ℝ) ≤ 0.5 ∧ (0.5 : ℝ) ≤ 0.75 ∧
        (0.75 : ℝ) ≤ 1) ∧
      perlin_gain_value ⟨(0.5 : ℝ), false, false, Mode.REC709⟩ 0.25 0.25 0.25 0.25 = 0.25 ∧
      perlin_gain_value ⟨(0.75 : ℝ), false, false, Mode.REC709⟩ 0.25 0.25 0.25 0.25
        = 0.125 ∧
      ¬ (perlin_gain_value ⟨(0.5 : ℝ), false, false, Mode.REC709⟩ 0.25 0.25 0.25 0.25 ≤
        perlin_gain_value ⟨(0.75 : ℝ), false, false, Mode.REC709⟩ 0.25 0.25 0.25 0.25) := by
  have a : perlin_gain_value ⟨(0.5 : ℝ), false, false, Mode.REC709⟩ 0.25 0.25 0.25 0.25
      = 0.25 := perlin_gain_value_half _ _ _ _ _ _ _
  have b : perlin_gain_value ⟨(0.75 : ℝ), false, false, Mode.REC709⟩ 0.25 0.25 0.25 0.25
      = 0.125 := by
    rw [perlin_gain_value_low _ (by norm_num) 0.25 0.25 0.25 0.25 (by norm_num)]
    simp only [exponent_three_quarters, Real.rpow_two]
    norm_num
  refine ⟨by norm_num, a, b, ?_⟩
  rw [a, b]
  norm_num

/-- Witness for C4 (as amended): `lum = 0.75`, gains `0.5 ≤ 0.75`. -/
theorem curve_mono_in_gain_upper_half_witness :
    ((0 : ℝ) ≤ 0.5 ∧ (0.5 : ℝ) ≤ 0.75 ∧ (0.75 : ℝ) ≤ 1 ∧ (0.5 : ℝ) ≤ 0.75 ∧
        (0.75 : ℝ) ≤ 1) ∧
      perlin_gain_value ⟨(0.5 : ℝ), false, false, Mode.REC709⟩ 0.75 0.75 0.75 0.75 ≤
        perlin_gain_value ⟨(0.75 : ℝ), false, false, Mode.REC709⟩ 0.75 0.75 0.75 0.75 :=
  ⟨by norm_num,
    curve_mono_in_gain_upper_half ⟨0.5, false, false, Mode.REC709⟩
      ⟨0.75, false, false, Mode.REC709⟩ (by norm_num) (by norm_num) (by norm_num)
      0.75 0.75 0.75 0.75 (by norm_num) (by norm_num)⟩

/-- C5: for every `lum` in `[0,1]` and every gain in `[0,1]`, `perlin_gain_value`
returns a value in `[0,1]`; it lies in `[0, 0.5]` when `lum < 0.5` and in `[0.5, 1]`
when `lum ≥ 0.5`. -/
theorem curve_range (self : sf_PerlinGainIop ℝ) (h0 : 0 ≤ self.gain)
    (h1 : self.gain ≤ 1) (r g b lum : ℝ) (hl0 : 0 ≤ lum) (hl1 : lum ≤ 1) :
    (0 ≤ perlin_gain_value self r g b lum ∧ perlin_gain_value self r g b lum ≤ 1) ∧
      (lum < 0.5 → 0 ≤ perlin_gain_value self r g b lum ∧
        perlin_gain_value self r g b lum ≤ 0.5) ∧
      (0.5 ≤ lum → 0.5 ≤ perlin_gain_value self r g b lum ∧
        perlin_gain_value self r g b lum ≤ 1) := by
  obtain ⟨hlow, hhigh⟩ := perlin_gain_value_range self h0 h1 r g b lum hl0 hl1
  refine ⟨?_, hlow, hhigh⟩
  rcases lt_or_le lum 0.5 with h | h
  · obtain ⟨a, b⟩ := hlow h
    exact ⟨a, le_trans b (by norm_num)⟩
  · obtain ⟨a, b⟩ := hhigh h
    exact ⟨le_trans (by norm_num) a, b⟩

/-- Witness for C5: `gain = 0.75`, `lum = 0.25`, where the value is in `[0, 0.5]`. -/
theorem curve_range_witness :
    ((0 : ℝ) ≤ 0.75 ∧ (0.75 : ℝ) ≤ 1 ∧ (0 : ℝ) ≤ 0.25 ∧ (0.25 : ℝ) ≤ 1 ∧
        (0.25 : ℝ) < 0.5) ∧
      0 ≤ perlin_gain_value ⟨(0.75 : ℝ), false, false, Mode.REC709⟩ 0.25 0.25 0.25 0.25 ∧
      perlin_gain_value ⟨(0.75 : ℝ), false, false, Mode.REC709⟩ 0.25 0.25 0.25 0.25 ≤ 0.5 :=
  ⟨by norm_num,
    (curve_range ⟨0.75, false, false, Mode.REC709⟩ (by norm_num) (by norm_num)
      0.25 0.25 0.25 0.25 (by norm_num) (by norm_num)).2.1 (by norm_num)⟩

/-- C6: when `1 - gain ≤ 0`, `perlin_gain_value` is the step function: `0` for every
`lum < 0.5` and `1` for every `lum ≥ 0.5`, so the midpoint `0.5` maps to `1`.  The
statement holds for every implementation of `powf` and `logf`: the result does not
depend on them, no libm call is evaluated. -/
theorem curve_step_at_gain_one {α : Type} [LinearOrderedField α] [Libm α]
    (self : sf_PerlinGainIop α) (h : 1 - self.gain ≤ 0) (r g b lum : α) :
    (lum < 0.5 → perlin_gain_value self r g b lum = 0) ∧
      (0.5 ≤ lum → perlin_gain_value self r g b lum = 1) ∧
      perlin_gain_value self r g b 0.5 = 1 := by
  refine ⟨?_, ?_, ?_⟩
  · intro hl
    rw [perlin_gain_value_of_gain_ge_one self h, if_pos hl]
  · intro hl
    rw [perlin_gain_value_of_gain_ge_one self h, if_neg (not_lt.mpr hl)]
  · rw [perlin_gain_value_of_gain_ge_one self h, if_neg (lt_irrefl _)]

/-- Witness for C6: `gain = 1` over the reals, at `lum = 0.4` and at the midpoint. -/
theorem curve_step_at_gain_one_witness :
    (1 - (1 : ℝ) ≤ 0 ∧ (0.4 : ℝ) < 0.5) ∧
      perlin_gain_value ⟨(1 : ℝ), false, false, Mode.AVERAGE⟩ 0.2 0.4 0.6 0.4 = 0 ∧
      perlin_gain_value ⟨(1 : ℝ), false, false, Mode.AVERAGE⟩ 0.5 0.5 0.5 0.5 = 1 :=
  ⟨by norm_num,
    (curve_step_at_gain_one ⟨(1 : ℝ), false, false, Mode.AVERAGE⟩ (by norm_num)
      0.2 0.4 0.6 0.4).1 (by norm_num),
    (curve_step_at_gain_one ⟨(1 : ℝ), false, false, Mode.AVERAGE⟩ (by norm_num)
      0.5 0.5 0.5 0.5).2.2⟩

/-- C7: for `gain = 1`, every mode, every combination of the two clamp flags and every
pixel whose luminance in that mode is below `0.5`, one pixel step outputs `(0,0,0)`
(for every implementation of `powf` and `logf`: none is called).  The factor is
`0/(lum+0.00001)`; the divisor vanishes only at the real luminance `-0.00001`, which no
`float` luminance added to the `double` literal reaches, and there the field's total
division gives `0` as well. -/
theorem gain_one_dark_pixel_black {α : Type} [LinearOrderedField α] [Libm α]
    (cw cb : Bool) (mode : Mode) (r g b : α) (hl : luminance mode r g b < 0.5) :
    pixel_engine_pixel ⟨1, cw, cb, mode⟩ r g b = (0, 0, 0) := by
  have hs : scale ⟨1, cw, cb, mode⟩ r g b = 0 := by
    simp only [scale]
    rw [perlin_gain_value_of_gain_ge_one _ (by simp), if_pos hl, zero_div]
  rw [pixel_engine_pixel_eq]
  simp only [hs, mul_zero]
  cases cw <;> cases cb <;> simp [clamp]

/-- Witness for C7: the spec's case, mode Average, pixel `(0.2, 0.4, 0.6)`, luminance
`0.4`, here with both clamp flags set. -/
theorem gain_one_dark_pixel_black_witness :
    luminance Mode.AVERAGE (0.2 : ℝ) 0.4 0.6 = 0.4 ∧
      luminance Mode.AVERAGE (0.2 : ℝ) 0.4 0.6 < 0.5 ∧
      pixel_engine_pixel ⟨(1 : ℝ), true, true, Mode.AVERAGE⟩ 0.2 0.4 0.6 = (0, 0, 0) :=
  ⟨by norm_num [luminance, y_convert_avg], by norm_num [luminance, y_convert_avg],
    gain_one_dark_pixel_black true true Mode.AVERAGE 0.2 0.4 0.6
      (by norm_num [luminance, y_convert_avg])⟩

/-- With both clamp flags off, for a gain in `[0,1]` and a pixel whose luminance lies in
`[0,1]` (where the base of the curve's `powf` call is not negative), the output is the
input multiplied channel-wise by the one factor `val/(lum+0.00001)`, and the channel
ratios are preserved. -/
theorem clamps_off_common_factor_unit_range (gain : ℝ) (mode : Mode) (r g b : ℝ)
    (_h0 : 0 ≤ gain) (_h1 : gain ≤ 1) (_hL0 : 0 ≤ luminance mode r g b)
    (_hL1 : luminance mode r g b ≤ 1) :
    pixel_engine_pixel ⟨gain, false, false, mode⟩ r g b =
        (r * (perlin_gain_value ⟨gain, false, false, mode⟩ r g b (luminance mode r g b) /
              (luminance mode r g b + 0.00001)),
         g * (perlin_gain_value ⟨gain, false, false, mode⟩ r g b (luminance mode r g b) /
              (luminance mode r g b + 0.00001)),
         b * (perlin_gain_value ⟨gain, false, false, mode⟩ r g b (luminance mode r g b) /
              (luminance mode r g b + 0.00001))) ∧
      (pixel_engine_pixel ⟨gain, false, false, mode⟩ r g b).1 * g =
        (pixel_engine_pixel ⟨gain, false, false, mode⟩ r g b).2.1 * r ∧
      (pixel_engine_pixel ⟨gain, false, false, mode⟩ r g b).1 * b =
        (pixel_engine_pixel ⟨gain, false, false, mode⟩ r g b).2.2 * r ∧
      (pixel_engine_pixel ⟨gain, false, false, mode⟩ r g b).2.1 * b =
        (pixel_engine_pixel ⟨gain, false, false, mode⟩ r g b).2.2 * g := by
  rw [pixel_engine_pixel_off]
  refine ⟨rfl, ?_, ?_, ?_⟩ <;> simp only [] <;> ring

/-- The clamp branches for a gain in `[0,1]` and a pixel whose luminance lies in `[0,1]`
(where the base of the curve's `powf` call is not negative).  Let `u` be a channel of
the output computed with both clamp flags off.  With `clampwhites` only the channel is
`min u 1`, with `clampblacks` only `max u 0`, with both `min (max u 0) 1`, in every
mode.  So no channel exceeds `1` when `clampwhites` is set, none is below `0` when
`clampblacks` is set, and with `clampwhites` alone a negative channel does occur
(gain `0.5`, Rec709, pixel `(-1, 1, 1)`, luminance `0.575`). -/
theorem clamp_policy_unit_range (gain : ℝ) (mode : Mode) (r g b : ℝ)
    (_h0 : 0 ≤ gain) (_h1 : gain ≤ 1) (_hL0 : 0 ≤ luminance mode r g b)
    (_hL1 : luminance mode r g b ≤ 1) :
    pixel_engine_pixel ⟨gain, true, false, mode⟩ r g b =
        (min (pixel_engine_pixel ⟨gain, false, false, mode⟩ r g b).1 1,
         min (pixel_engine_pixel ⟨gain, false, false, mode⟩ r g b).2.1 1,
         min (pixel_engine_pixel ⟨gain, false, false, mode⟩ r g b).2.2 1) ∧
      pixel_engine_pixel ⟨gain, false, true, mode⟩ r g b =
        (max (pixel_engine_pixel ⟨gain, false, false, mode⟩ r g b).1 0,
         max (pixel_engine_pixel ⟨gain, false, false, mode⟩ r g b).2.1 0,
         max (pixel_engine_pixel ⟨gain, false, false, mode⟩ r g b).2.2 0) ∧
      pixel_engine_pixel ⟨gain, true, true, mode⟩ r g b =
        (min (max (pixel_engine_pixel ⟨gain, false, false, mode⟩ r g b).1 0) 1,
         min (max (pixel_engine_pixel ⟨gain, false, false, mode⟩ r g b).2.1 0) 1,
         min (max (pixel_engine_pixel ⟨gain, false, false, mode⟩ r g b).2.2 0) 1) ∧
      (∀ cb : Bool,
        (pixel_engine_pixel ⟨gain, true, cb, mode⟩ r g b).1 ≤ 1 ∧
        (pixel_engine_pixel ⟨gain, true, cb, mode⟩ r g b).2.1 ≤ 1 ∧
        (pixel_engine_pixel ⟨gain, true, cb, mode⟩ r g b).2.2 ≤ 1) ∧
      (∀ cw : Bool,
        0 ≤ (pixel_engine_pixel ⟨gain, cw, true, mode⟩ r g b).1 ∧
        0 ≤ (pixel_engine_pixel ⟨gain, cw, true, mode⟩ r g b).2.1 ∧
        0 ≤ (pixel_engine_pixel ⟨gain, cw, true, mode⟩ r g b).2.2) ∧
      (pixel_engine_pixel ⟨(0.5 : ℝ), true, false, Mode.REC709⟩ (-1) 1 1).1 < 0 := by
  have hw : pixel_engine_pixel ⟨gain, true, false, mode⟩ r g b =
      (min (pixel_engine_pixel ⟨gain, false, false, mode⟩ r g b).1 1,
       min (pixel_engine_pixel ⟨gain, false, false, mode⟩ r g b).2.1 1,
       min (pixel_engine_pixel ⟨gain, false, false, mode⟩ r g b).2.2 1) := by
    rw [pixel_engine_pixel_off, pixel_engine_pixel_eq]
    simp only [scale_flags gain true false, ite_gt_one_eq_min]
    simp
  have hb : pixel_engine_pixel ⟨gain, false, true, mode⟩ r g b =
      (max (pixel_engine_pixel ⟨gain, false, false, mode⟩ r g b).1 0,
       max (pixel_engine_pixel ⟨gain, false, false, mode⟩ r g b).2.1 0,
       max (pixel_engine_pixel ⟨gain, false, false, mode⟩ r g b).2.2 0) := by
    rw [pixel_engine_pixel_off, pixel_engine_pixel_eq]
    simp only [scale_flags gain false true, ite_lt_zero_eq_max]
    simp
  have hwb : pixel_engine_pixel ⟨gain, true, true, mode⟩ r g b =
      (min (max (pixel_engine_pixel ⟨gain, false, false, mode⟩ r g b).1 0) 1,
       min (max (pixel_engine_pixel ⟨gain, false, false, mode⟩ r g b).2.1 0) 1,
       min (max (pixel_engine_pixel ⟨gain, false, false, mode⟩ r g b).2.2 0) 1) := by
    rw [pixel_engine_pixel_off, pixel_engine_pixel_eq]
    simp only [scale_flags gain true true, clamp_eq_min_max]
    simp
  refine ⟨hw, hb, hwb, ?_, ?_, ?_⟩
  · intro cb
    cases cb
    · rw [hw]
      exact ⟨min_le_right _ _, min_le_right _ _, min_le_right _ _⟩
    · rw [hwb]
      exact ⟨min_le_right _ _, min_le_right _ _, min_le_right _ _⟩
  · intro cw
    cases cw
    · rw [hb]
      exact ⟨le_max_right _ _, le_max_right _ _, le_max_right _ _⟩
    · rw [hwb]
      exact ⟨le_min (le_max_right _ _) zero_le_one, le_min (le_max_right _ _) zero_le_one,
        le_min (le_max_right _ _) zero_le_one⟩
  · rw [pixel_engine_pixel_eq]
    simp only [scale_half, luminance, y_convert_rec709]
    norm_num

/-- C10: the luminance helpers compute the four documented formulas for every real
`r`, `g`, `b`; `y_convert_max` is the maximum of the three: it is `≥` each of them and
equal to one of them. -/
theorem luminance_helpers_formulas (r g b : ℝ) :
    y_convert_rec709 r g b = 0.2125 * r + 0.7154 * g + 0.0721 * b ∧
      y_convert_ccir601 r g b = 0.299 * r + 0.587 * g + 0.114 * b ∧
      y_convert_avg r g b = (r + g + b) / 3 ∧
      y_convert_max r g b = max r (max g b) ∧
      (r ≤ y_convert_max r g b ∧ g ≤ y_convert_max r g b ∧ b ≤ y_convert_max r g b) ∧
      (y_convert_max r g b = r ∨ y_convert_max r g b = g ∨ y_convert_max r g b = b) := by
  have hmax : y_convert_max r g b = max r (max g b) := by
    rw [y_convert_max_eq, max_assoc]
  refine ⟨?_, ?_, ?_, hmax, ?_, ?_⟩
  · unfold y_convert_rec709
    ring
  · unfold y_convert_ccir601
    ring
  · unfold y_convert_avg
    norm_num
  · rw [hmax]
    exact ⟨le_max_left _ _, le_trans (le_max_left _ _) (le_max_right _ _),
      le_trans (le_max_right _ _) (le_max_right _ _)⟩
  · rw [hmax]
    rcases max_choice r (max g b) with h | h
    · exact Or.inl h
    · rw [h]
      rcases max_choice g b with h2 | h2
      · exact Or.inr (Or.inl h2)
      · exact Or.inr (Or.inr h2)

/-! ## Helper lemmas for the concrete Rec709 case and for the shape of the curve -/

/-- A power with a rational exponent `p/q` is below `c` once `x ^ p ≤ c ^ q`. -/
theorem rpow_ratio_le {x c : ℝ} (hx : 0 ≤ x) (hc : 0 ≤ c) (p q : ℕ) (hq : q ≠ 0)
    (h : x ^ p ≤ c ^ q) : x ^ ((p : ℝ) / (q : ℝ)) ≤ c := by
  have e1 : x ^ ((p : ℝ) / (q : ℝ)) = (x ^ p) ^ ((q : ℝ)⁻¹) := by
    rw [div_eq_mul_inv, Real.rpow_mul hx, Real.rpow_natCast]
  have e2 : (c ^ q) ^ ((q : ℝ)⁻¹) = c := Real.pow_rpow_inv_natCast hc hq
  rw [e1, ← e2]
  exact Real.rpow_le_rpow (pow_nonneg hx p) h (inv_nonneg.mpr (Nat.cast_nonneg q))

/-- A power with a rational exponent `p/q` is above `c` once `c ^ q ≤ x ^ p`. -/
theorem le_rpow_ratio {x c : ℝ} (hx : 0 ≤ x) (hc : 0 ≤ c) (p q : ℕ) (hq : q ≠ 0)
    (h : c ^ q ≤ x ^ p) : c ≤ x ^ ((p : ℝ) / (q : ℝ)) := by
  have e1 : x ^ ((p : ℝ) / (q : ℝ)) = (x ^ p) ^ ((q : ℝ)⁻¹) := by
    rw [div_eq_mul_inv, Real.rpow_mul hx, Real.rpow_natCast]
  have e2 : (c ^ q) ^ ((q : ℝ)⁻¹) = c := Real.pow_rpow_inv_natCast hc hq
  rw [e1, ← e2]
  exact Real.rpow_le_rpow (pow_nonneg hc q) h (inv_nonneg.mpr (Nat.cast_nonneg q))

/-- At `gain = 0.2` the exponent `log(0.8)/log(0.5)` lies between `9/28` and `10/31`. -/
theorem exponent_fifth_bounds :
    (9 : ℝ) / 28 ≤ Real.log (1 - 0.2) / Real.log 0.5 ∧
      Real.log (1 - 0.2) / Real.log 0.5 ≤ (10 : ℝ) / 31 := by
  have h8 : (1 : ℝ) - 0.2 = 0.8 := by norm_num
  rw [h8]
  have a : (28 : ℝ) * Real.log 0.8 ≤ 9 * Real.log 0.5 := by
    have h := Real.log_le_log (by norm_num : (0 : ℝ) < 0.8 ^ 28)
      (by norm_num : (0.8 : ℝ) ^ 28 ≤ 0.5 ^ 9)
    rw [Real.log_pow, Real.log_pow] at h
    exact_mod_cast h
  have b : (10 : ℝ) * Real.log 0.5 ≤ 31 * Real.log 0.8 := by
    have h := Real.log_le_log (by norm_num : (0 : ℝ) < 0.5 ^ 10)
      (by norm_num : (0.5 : ℝ) ^ 10 ≤ 0.8 ^ 31)
    rw [Real.log_pow, Real.log_pow] at h
    exact_mod_cast h
  constructor
  · rw [le_div_iff_of_neg log_half_neg]
    linarith
  · rw [div_le_iff_of_neg log_half_neg]
    linarith

/-- The power the curve takes at `gain = 0.2`, `lum = 0.8` lies in `[0.744, 0.745]`. -/
theorem pow_fifth_bounds :
    (0.744 : ℝ) ≤ (0.4 : ℝ) ^ (Real.log (1 - 0.2) / Real.log 0.5) ∧
      (0.4 : ℝ) ^ (Real.log (1 - 0.2) / Real.log 0.5) ≤ 0.745 := by
  obtain ⟨elo, ehi⟩ := exponent_fifth_bounds
  have h0 : (0 : ℝ) < 0.4 := by norm_num
  have h1 : (0.4 : ℝ) ≤ 1 := by norm_num
  have up : (0.4 : ℝ) ^ ((9 : ℝ) / 28) ≤ 0.745 := by
    have := rpow_ratio_le (le_of_lt h0) (by norm_num : (0 : ℝ) ≤ 0.745) 9 28 (by norm_num)
      (by norm_num)
    simpa using this
  have lo : (0.744 : ℝ) ≤ (0.4 : ℝ) ^ ((10 : ℝ) / 31) := by
    have := le_rpow_ratio (le_of_lt h0) (by norm_num : (0 : ℝ) ≤ 0.744) 10 31 (by norm_num)
      (by norm_num)
    simpa using this
  exact ⟨le_trans lo (Real.rpow_le_rpow_of_exponent_ge h0 h1 ehi),
    le_trans (Real.rpow_le_rpow_of_exponent_ge h0 h1 elo) up⟩

/-- The curve value of the concrete case: `lum = 0.8` at `gain = 0.2` gives a value in
`[0.6275, 0.628]`. -/
theorem perlin_gain_value_fifth (cw cb : Bool) (mode : Mode) (r g b : ℝ) :
    0.6275 ≤ perlin_gain_value ⟨0.2, cw, cb, mode⟩ r g b 0.8 ∧
      perlin_gain_value ⟨0.2, cw, cb, mode⟩ r g b 0.8 ≤ 0.628 := by
  rw [perlin_gain_value_high ⟨0.2, cw, cb, mode⟩ (by norm_num) r g b 0.8 (by norm_num)]
  have h4 : (2 : ℝ) - 2 * 0.8 = 0.4 := by norm_num
  rw [h4]
  obtain ⟨lo, hi⟩ := pow_fifth_bounds
  constructor <;> norm_num at lo hi ⊢ <;> linarith

/-- The pixel step of the concrete case, written with the curve value. -/
theorem pixel_engine_pixel_fifth :
    pixel_engine_pixel ⟨(0.2 : ℝ), false, false, Mode.REC709⟩ 0.8 0.8 0.8 =
      (0.8 * (perlin_gain_value ⟨(0.2 : ℝ), false, false, Mode.REC709⟩ 0.8 0.8 0.8 0.8 /
          0.80001),
       0.8 * (perlin_gain_value ⟨(0.2 : ℝ), false, false, Mode.REC709⟩ 0.8 0.8 0.8 0.8 /
          0.80001),
       0.8 * (perlin_gain_value ⟨(0.2 : ℝ), false, false, Mode.REC709⟩ 0.8 0.8 0.8 0.8 /
          0.80001)) := by
  have hL : y_convert_rec709 (0.8 : ℝ) 0.8 0.8 = 0.8 := by norm_num [y_convert_rec709]
  have hd : (0.8 : ℝ) + 0.00001 = 0.80001 := by norm_num
  rw [pixel_engine_pixel_off]
  simp only [scale, luminance, hL, hd]

/-- A channel `0.8 * (v / 0.80001)` with `v` in `[0.6275, 0.628]` is within `0.0005` of
`0.6277` and not within `0.0005` of `0.6411`. -/
theorem channel_fifth_bounds {v : ℝ} (lo : 0.6275 ≤ v) (hi : v ≤ 0.628) :
    0.6272 < 0.8 * (v / 0.80001) ∧ 0.8 * (v / 0.80001) < 0.6282 := by
  have hpos : (0 : ℝ) < 0.80001 := by norm_num
  rw [← mul_div_assoc, lt_div_iff₀ hpos, div_lt_iff₀ hpos]
  constructor <;> norm_num <;> linarith

/-- C11 (as amended): for mode Rec709, gain `0.2`, both clamp flags off and the pixel
`(0.8, 0.8, 0.8)`, the luminance is `0.8`, the new luminance
`0.5*(2 - pow(0.4, log(0.8)/log(0.5)))` is `0.6277` to within `0.0005`, and every output
channel is within `0.0005` of `0.6277`. -/
theorem rec709_fifth_case :
    luminance Mode.REC709 (0.8 : ℝ) 0.8 0.8 = 0.8 ∧
      |perlin_gain_value ⟨(0.2 : ℝ), false, false, Mode.REC709⟩ 0.8 0.8 0.8 0.8 - 0.6277|
        < 0.0005 ∧
      |(pixel_engine_pixel ⟨(0.2 : ℝ), false, false, Mode.REC709⟩ 0.8 0.8 0.8).1 - 0.6277|
        < 0.0005 ∧
      |(pixel_engine_pixel ⟨(0.2 : ℝ), false, false, Mode.REC709⟩ 0.8 0.8 0.8).2.1 - 0.6277|
        < 0.0005 ∧
      |(pixel_engine_pixel ⟨(0.2 : ℝ), false, false, Mode.REC709⟩ 0.8 0.8 0.8).2.2 - 0.6277|
        < 0.0005 := by
  obtain ⟨lo, hi⟩ := perlin_gain_value_fifth false false Mode.REC709 0.8 0.8 0.8
  obtain ⟨clo, chi⟩ := channel_fifth_bounds lo hi
  have hc : |0.8 * (perlin_gain_value ⟨(0.2 : ℝ), false, false, Mode.REC709⟩ 0.8 0.8 0.8 0.8
      / 0.80001) - 0.6277| < 0.0005 := by
    rw [abs_lt]
    constructor <;> norm_num at clo chi ⊢ <;> linarith
  refine ⟨by norm_num [luminance, y_convert_rec709], ?_, ?_, ?_, ?_⟩
  · rw [abs_lt]
    constructor <;> norm_num at lo hi ⊢ <;> linarith
  · rw [pixel_engine_pixel_fifth]
    exact hc
  · rw [pixel_engine_pixel_fifth]
    exact hc
  · rw [pixel_engine_pixel_fifth]
    exact hc

/-- C11, the claim as stated fails: in that case the new luminance is below `0.628`
and so is every output channel, hence none of them is within `0.0005` of `0.6411`. -/
theorem rec709_fifth_case_not_6411 :
    perlin_gain_value ⟨(0.2 : ℝ), false, false, Mode.REC709⟩ 0.8 0.8 0.8
        (luminance Mode.REC709 0.8 0.8 0.8) ≤ 0.628 ∧
      ¬ |perlin_gain_value ⟨(0.2 : ℝ), false, false, Mode.REC709⟩ 0.8 0.8 0.8
        (luminance Mode.REC709 0.8 0.8 0.8) - 0.6411| ≤ 0.0005 ∧
      ¬ |(pixel_engine_pixel ⟨(0.2 : ℝ), false, false, Mode.REC709⟩ 0.8 0.8 0.8).1 - 0.6411|
        ≤ 0.0005 := by
  have hL : luminance Mode.REC709 (0.8 : ℝ) 0.8 0.8 = 0.8 := by
    norm_num [luminance, y_convert_rec709]
  obtain ⟨lo, hi⟩ := perlin_gain_value_fifth false false Mode.REC709 0.8 0.8 0.8
  obtain ⟨clo, chi⟩ := channel_fifth_bounds lo hi
  rw [hL]
  refine ⟨hi, ?_, ?_⟩
  · intro h
    have h2 := (abs_le.mp h).1
    norm_num at h2 hi
    linarith
  · rw [pixel_engine_pixel_fifth]
    intro h
    have h2 := (abs_le.mp h).1
    norm_num at h2 chi
    linarith

/-- C12 (as amended): the curve is point-symmetric about `(0.5, 0.5)` for every gain in
`[0,1)` and every `lum` in `[0,1]`, and for `gain = 1` at every `lum` in `[0,1]` other
than `0.5`: `perlin_gain_value(1 - lum) = 1 - perlin_gain_value(lum)`. -/
theorem curve_point_symmetric (self : sf_PerlinGainIop ℝ) (_h0 : 0 ≤ self.gain)
    (h1 : self.gain ≤ 1) (r g b r2 g2 b2 lum : ℝ) (_hl0 : 0 ≤ lum) (_hl1 : lum ≤ 1)
    (hne : self.gain < 1 ∨ lum ≠ 0.5) :
    perlin_gain_value self r2 g2 b2 (1 - lum) = 1 - perlin_gain_value self r g b lum := by
  rcases lt_or_eq_of_le h1 with hlt | heq
  · rcases lt_trichotomy lum 0.5 with hl | hl | hl
    · have hh : (0.5 : ℝ) ≤ 1 - lum := by norm_num at hl ⊢; linarith
      rw [perlin_gain_value_high self hlt r2 g2 b2 (1 - lum) hh,
        perlin_gain_value_low self hlt r g b lum hl]
      have e : (2 : ℝ) - 2 * (1 - lum) = 2 * lum := by ring
      rw [e]
      ring
    · have e : (1 : ℝ) - lum = lum := by rw [hl]; norm_num
      rw [e, perlin_gain_value_high self hlt r2 g2 b2 lum (le_of_eq hl.symm),
        perlin_gain_value_high self hlt r g b lum (le_of_eq hl.symm)]
      have e2 : (2 : ℝ) - 2 * lum = 1 := by rw [hl]; norm_num
      rw [e2, Real.one_rpow]
      norm_num
    · have hh : 1 - lum < 0.5 := by norm_num at hl ⊢; linarith
      rw [perlin_gain_value_low self hlt r2 g2 b2 (1 - lum) hh,
        perlin_gain_value_high self hlt r g b lum (le_of_lt hl)]
      have e : (2 : ℝ) * (1 - lum) = 2 - 2 * lum := by ring
      rw [e]
      ring
  · have hge : 1 - self.gain ≤ 0 := by linarith
    have hl5 : lum ≠ 0.5 := by
      rcases hne with h | h
      · exact absurd heq (ne_of_lt h)
      · exact h
    rw [perlin_gain_value_of_gain_ge_one self hge, perlin_gain_value_of_gain_ge_one self hge]
    rcases lt_or_gt_of_ne hl5 with hl | hl
    · have hh : ¬ (1 - lum < 0.5) := by norm_num at hl ⊢; linarith
      rw [if_pos hl, if_neg hh]
      norm_num
    · have hh : 1 - lum < 0.5 := by norm_num at hl ⊢; linarith
      rw [if_neg (not_lt.mpr (le_of_lt hl)), if_pos hh]
      norm_num

/-- C12, the claim as stated fails at `gain = 1`, `lum = 0.5`: the step maps `0.5` to
`1`, and `1 - 0.5 = 0.5` is mapped to `1` too, not to `1 - 1 = 0`. -/
theorem curve_not_symmetric_at_gain_one :
    perlin_gain_value ⟨(1 : ℝ), false, false, Mode.REC709⟩ 0.5 0.5 0.5 0.5 = 1 ∧
      perlin_gain_value ⟨(1 : ℝ), false, false, Mode.REC709⟩ 0.5 0.5 0.5 (1 - 0.5) = 1 ∧
      perlin_gain_value ⟨(1 : ℝ), false, false, Mode.REC709⟩ 0.5 0.5 0.5 (1 - 0.5) ≠
        1 - perlin_gain_value ⟨(1 : ℝ), false, false, Mode.REC709⟩ 0.5 0.5 0.5 0.5 := by
  have a : ∀ l : ℝ, ¬ l < 0.5 →
      perlin_gain_value ⟨(1 : ℝ), false, false, Mode.REC709⟩ 0.5 0.5 0.5 l = 1 := by
    intro l hl
    rw [perlin_gain_value_of_gain_ge_one _ (by norm_num), if_neg hl]
  have h1 := a 0.5 (by norm_num)
  have h2 := a (1 - 0.5) (by norm_num)
  refine ⟨h1, h2, ?_⟩
  rw [h1, h2]
  norm_num

/-- Witness for C12 (as amended): `gain = 0.75`, `lum = 0.25`. -/
theorem curve_point_symmetric_witness :
    ((0 : ℝ) ≤ 0.75 ∧ (0.75 : ℝ) ≤ 1 ∧ (0 : ℝ) ≤ 0.25 ∧ (0.25 : ℝ) ≤ 1 ∧
        ((0.75 : ℝ) < 1 ∨ (0.25 : ℝ) ≠ 0.5)) ∧
      perlin_gain_value ⟨(0.75 : ℝ), false, false, Mode.REC709⟩ 0.75 0.75 0.75 (1 - 0.25) =
        1 - perlin_gain_value ⟨(0.75 : ℝ), false, false, Mode.REC709⟩ 0.25 0.25 0.25 0.25 :=
  ⟨⟨by norm_num, by norm_num, by norm_num, by norm_num, Or.inl (by norm_num)⟩,
    curve_point_symmetric ⟨0.75, false, false, Mode.REC709⟩ (by norm_num) (by norm_num)
      0.25 0.25 0.25 0.75 0.75 0.75 0.25 (by norm_num) (by norm_num)
      (Or.inl (by norm_num))⟩

/-! ## The superwhite pixel -/

/-- The loss `c - c * (L/(L+0.00001))` of a channel `c ≥ 0` is non-negative and below
`0.00001/0.0721` when `0.0721 * c ≤ L`. -/
theorem scaled_channel_loss {c L : ℝ} (hc : 0 ≤ c) (hL : 0.0721 * c ≤ L) :
    0 ≤ c - c * (L / (L + 0.00001)) ∧ c - c * (L / (L + 0.00001)) < 0.00001 / 0.0721 := by
  have hL0 : 0 ≤ L := le_trans (by positivity) hL
  have hpos : (0 : ℝ) < L + 0.00001 := by linarith
  have key : c - c * (L / (L + 0.00001)) = c * 0.00001 / (L + 0.00001) := by
    field_simp
    ring
  rw [key]
  constructor
  · positivity
  · rw [div_lt_div_iff₀ hpos (by norm_num)]
    nlinarith

section Homogeneous

variable {α : Type} [LinearOrderedField α]

/-- Each luminance function commutes with a non-negative common factor. -/
theorem luminance_mul (mode : Mode) (r g b : α) {k : α} (hk : 0 ≤ k) :
    luminance mode (r * k) (g * k) (b * k) = luminance mode r g b * k := by
  cases mode
  · simp only [luminance, y_convert_rec709]
    ring
  · simp only [luminance, y_convert_ccir601]
    ring
  · simp only [luminance, y_convert_avg]
    ring
  · simp only [luminance, y_convert_max_eq]
    rw [max_mul_of_nonneg _ _ hk, max_mul_of_nonneg _ _ hk]

/-- Every luminance function returns `v` on the grey pixel `(v, v, v)`. -/
theorem luminance_grey (mode : Mode) (v : α) : luminance mode v v v = v := by
  cases mode
  · simp only [luminance, y_convert_rec709]
    norm_num
    ring
  · simp only [luminance, y_convert_ccir601]
    norm_num
    ring
  · simp only [luminance, y_convert_avg]
    norm_num
    ring
  · simp only [luminance, y_convert_max_eq, max_self]

/-- The curve reads only `gain` from the object. -/
theorem perlin_gain_value_mode [Libm α] (gain : α) (cw cb cw2 cb2 : Bool) (m1 m2 : Mode)
    (r g b r2 g2 b2 lum : α) :
    perlin_gain_value ⟨gain, cw, cb, m1⟩ r g b lum =
      perlin_gain_value ⟨gain, cw2, cb2, m2⟩ r2 g2 b2 lum := rfl

end Homogeneous

/-- From the midpoint up the curve does not fall when the gain grows. -/
theorem perlin_gain_value_gain_high (s1 s2 : sf_PerlinGainIop ℝ) (h0 : 0 ≤ s1.gain)
    (h12 : s1.gain ≤ s2.gain) (h1 : s2.gain ≤ 1) (r g b lum : ℝ) (hl : 0.5 ≤ lum)
    (hu : lum ≤ 1) :
    perlin_gain_value s1 r g b lum ≤ perlin_gain_value s2 r g b lum := by
  have hl0 : 0 ≤ lum := le_trans (by norm_num) hl
  rcases lt_or_eq_of_le h1 with hlt | heq
  · have hlt1 : s1.gain < 1 := lt_of_le_of_lt h12 hlt
    rw [perlin_gain_value_high s1 hlt1 r g b lum hl,
      perlin_gain_value_high s2 hlt r g b lum hl]
    have hp := Real.rpow_le_rpow_of_exponent_ge' (by linarith : (0 : ℝ) ≤ 2 - 2 * lum)
      (by norm_num at hl; linarith : 2 - 2 * lum ≤ 1) (exponent_nonneg h0 hlt1)
      (exponent_mono h12 hlt)
    norm_num
    linarith
  · have hge : 1 - s2.gain ≤ 0 := by linarith
    rw [perlin_gain_value_of_gain_ge_one s2 hge, if_neg (not_lt.mpr hl)]
    exact ((perlin_gain_value_range s1 h0 (le_trans h12 h1) r g b lum hl0 hu).2 hl).2

/-- Below the midpoint the curve does not rise when the gain grows. -/
theorem perlin_gain_value_gain_low (s1 s2 : sf_PerlinGainIop ℝ) (h0 : 0 ≤ s1.gain)
    (h12 : s1.gain ≤ s2.gain) (h1 : s2.gain ≤ 1) (r g b lum : ℝ) (hl0 : 0 ≤ lum)
    (hl : lum < 0.5) :
    perlin_gain_value s2 r g b lum ≤ perlin_gain_value s1 r g b lum := by
  have hu : lum ≤ 1 := le_trans (le_of_lt hl) (by norm_num)
  rcases lt_or_eq_of_le h1 with hlt | heq
  · have hlt1 : s1.gain < 1 := lt_of_le_of_lt h12 hlt
    rw [perlin_gain_value_low s1 hlt1 r g b lum hl,
      perlin_gain_value_low s2 hlt r g b lum hl]
    have hp := Real.rpow_le_rpow_of_exponent_ge' (by linarith : (0 : ℝ) ≤ 2 * lum)
      (by norm_num at hl; linarith : 2 * lum ≤ 1) (exponent_nonneg h0 hlt1)
      (exponent_mono h12 hlt)
    norm_num
    linarith
  · have hge : 1 - s2.gain ≤ 0 := by linarith
    rw [perlin_gain_value_of_gain_ge_one s2 hge, if_pos hl]
    exact ((perlin_gain_value_range s1 h0 (le_trans h12 h1) r g b lum hl0 hu).1 hl).1

/-! ## The claims on the behaviour of the transform -/

/-- C16 (as amended): in exact real arithmetic (the rounding of the `float` stores set
aside), at `gain = 0.5` with both clamp flags off, for every mode and every pixel with
`r, g, b ≥ 0`, each output channel `c'` of an input channel `c` equals
`c*lum/(lum+0.00001)`; so `c'` never exceeds `c` and the loss satisfies
`0 ≤ c - c' < 0.00014`, the bound being `0.00001/0.0721`, however large the channels
are. -/
theorem gain_half_channel_loss (mode : Mode) (r g b : ℝ) (hr : 0 ≤ r) (hg : 0 ≤ g)
    (hb : 0 ≤ b) :
    pixel_engine_pixel ⟨0.5, false, false, mode⟩ r g b =
        (r * luminance mode r g b / (luminance mode r g b + 0.00001),
         g * luminance mode r g b / (luminance mode r g b + 0.00001),
         b * luminance mode r g b / (luminance mode r g b + 0.00001)) ∧
      ((pixel_engine_pixel ⟨0.5, false, false, mode⟩ r g b).1 ≤ r ∧
        0 ≤ r - (pixel_engine_pixel ⟨0.5, false, false, mode⟩ r g b).1 ∧
        r - (pixel_engine_pixel ⟨0.5, false, false, mode⟩ r g b).1 < 0.00001 / 0.0721) ∧
      ((pixel_engine_pixel ⟨0.5, false, false, mode⟩ r g b).2.1 ≤ g ∧
        0 ≤ g - (pixel_engine_pixel ⟨0.5, false, false, mode⟩ r g b).2.1 ∧
        g - (pixel_engine_pixel ⟨0.5, false, false, mode⟩ r g b).2.1 < 0.00001 / 0.0721) ∧
      ((pixel_engine_pixel ⟨0.5, false, false, mode⟩ r g b).2.2 ≤ b ∧
        0 ≤ b - (pixel_engine_pixel ⟨0.5, false, false, mode⟩ r g b).2.2 ∧
        b - (pixel_engine_pixel ⟨0.5, false, false, mode⟩ r g b).2.2 < 0.00001 / 0.0721) ∧
      (0.00001 : ℝ) / 0.0721 < 0.00014 := by
  obtain ⟨wr, wg, wb⟩ := luminance_weight_le mode hr hg hb
  have lr := scaled_channel_loss hr wr
  have lg := scaled_channel_loss hg wg
  have lb := scaled_channel_loss hb wb
  rw [pixel_engine_pixel_off, scale_half]
  refine ⟨?_, ⟨?_, lr.1, lr.2⟩, ⟨?_, lg.1, lg.2⟩, ⟨?_, lb.1, lb.2⟩, by norm_num⟩
  · simp only [mul_div_assoc]
  · exact (scaled_channel_near hr wr).2
  · exact (scaled_channel_near hg wg).2
  · exact (scaled_channel_near hb wb).2

/-- Witness for C16: the superwhite pixel `(1.4, 0.9, 0.3)` in mode Maximum. -/
theorem gain_half_channel_loss_witness :
    ((0 : ℝ) ≤ 1.4 ∧ (0 : ℝ) ≤ 0.9 ∧ (0 : ℝ) ≤ 0.3) ∧
      0 ≤ 1.4 - (pixel_engine_pixel ⟨(0.5 : ℝ), false, false, Mode.MAXIMUM⟩ 1.4 0.9 0.3).1 ∧
      1.4 - (pixel_engine_pixel ⟨(0.5 : ℝ), false, false, Mode.MAXIMUM⟩ 1.4 0.9 0.3).1 <
        0.00001 / 0.0721 :=
  ⟨⟨by norm_num, by norm_num, by norm_num⟩,
    (gain_half_channel_loss Mode.MAXIMUM 1.4 0.9 0.3 (by norm_num) (by norm_num)
      (by norm_num)).2.1.2⟩

/-- C16, the claim as stated fails in the `float` arithmetic of the code: at
`gain = 0.5`, Rec709, clamps off, the pixel `(0, 0, 300)` has the luminance `21.63` and
the exact blue channel is `300 * (21.63 / 21.63001)`, about `0.0001387` below `300`.
The source stores it in the `float` variable `bValue`; the `float` numbers between
`256` and `512` are the multiples of `2^-15`, the stored value is `300 - 5 * 2^-15`,
and its loss `5 * 2^-15`, about `0.0001526`, is not below `0.00014`.  Every multiple of
`2^-15` within half a step of the exact channel (and `10^-6` more, which covers the
rounding of the intermediate results) loses more than `0.00015`. -/
theorem gain_half_channel_loss_float_store :
    (pixel_engine_pixel ⟨(0.5 : ℝ), false, false, Mode.REC709⟩ 0 0 300).2.2 =
        300 * (21.63 / 21.63001) ∧
      f32 (pixel_engine_pixel ⟨(0.5 : ℝ), false, false, Mode.REC709⟩ 0 0 300).2.2 =
        300 - 5 / 2 ^ 15 ∧
      ¬ (300 - f32 (pixel_engine_pixel ⟨(0.5 : ℝ), false, false, Mode.REC709⟩ 0 0 300).2.2
        < 0.00014) ∧
      (∀ k : ℤ,
        |(k : ℝ) / 2 ^ 15 -
            (pixel_engine_pixel ⟨(0.5 : ℝ), false, false, Mode.REC709⟩ 0 0 300).2.2| ≤
          1 / 2 ^ 16 + 1 / 10 ^ 6 →
        0.00015 < 300 - (k : ℝ) / 2 ^ 15) := by
  have hL : luminance Mode.REC709 (0 : ℝ) 0 300 = 21.63 := by
    norm_num [luminance, y_convert_rec709]
  have hP : (pixel_engine_pixel ⟨(0.5 : ℝ), false, false, Mode.REC709⟩ 0 0 300).2.2 =
      300 * (21.63 / 21.63001) := by
    rw [pixel_engine_pixel_off, scale_half, hL]
    norm_num
  have hF : f32 ((300 : ℝ) * (21.63 / 21.63001)) = 300 - 5 / 2 ^ 15 :=
    f32_eval _ 8 9830395 _ (by norm_num [abs_of_pos]) (by norm_num [abs_of_pos])
      (by norm_num [abs_lt]) (by norm_num)
  rw [hP, hF]
  refine ⟨rfl, rfl, by norm_num, ?_⟩
  intro k hk
  obtain ⟨hk1, hk2⟩ := abs_le.mp hk
  have u1 : (k : ℝ) < ((9830396 : ℤ) : ℝ) := by
    push_cast
    norm_num at hk2 ⊢
    linarith
  have u2 : ((9830394 : ℤ) : ℝ) < (k : ℝ) := by
    push_cast
    norm_num at hk1 ⊢
    linarith
  have v1 : k < 9830396 := by exact_mod_cast u1
  have v2 : 9830394 < k := by exact_mod_cast u2
  have hk5 : k = 9830395 := by omega
  subst hk5
  norm_num

/-- C17: with both clamp flags off, for every mode, every gain in `[0,1]` and every
pixel whose luminance `L` in that mode lies in `[0,1]`, the luminance of the output
pixel, measured in the same mode, is `perlin_gain_value(L) * L / (L + 0.00001)`: the
common factor is non-negative and every luminance function commutes with it. -/
theorem output_luminance (gain : ℝ) (mode : Mode) (r g b : ℝ) (h0 : 0 ≤ gain)
    (h1 : gain ≤ 1) (hL0 : 0 ≤ luminance mode r g b) (hL1 : luminance mode r g b ≤ 1) :
    0 ≤ perlin_gain_value ⟨gain, false, false, mode⟩ r g b (luminance mode r g b) /
        (luminance mode r g b + 0.00001) ∧
      luminance mode (pixel_engine_pixel ⟨gain, false, false, mode⟩ r g b).1
          (pixel_engine_pixel ⟨gain, false, false, mode⟩ r g b).2.1
          (pixel_engine_pixel ⟨gain, false, false, mode⟩ r g b).2.2 =
        perlin_gain_value ⟨gain, false, false, mode⟩ r g b (luminance mode r g b) *
          luminance mode r g b / (luminance mode r g b + 0.00001) := by
  have hv : 0 ≤ perlin_gain_value ⟨gain, false, false, mode⟩ r g b (luminance mode r g b) := by
    have hrange := perlin_gain_value_range ⟨gain, false, false, mode⟩ h0 h1 r g b
      (luminance mode r g b) hL0 hL1
    rcases lt_or_le (luminance mode r g b) 0.5 with h | h
    · exact (hrange.1 h).1
    · exact le_trans (by norm_num) (hrange.2 h).1
  have hpos : (0 : ℝ) < luminance mode r g b + 0.00001 := by linarith
  have hk : 0 ≤ perlin_gain_value ⟨gain, false, false, mode⟩ r g b (luminance mode r g b) /
      (luminance mode r g b + 0.00001) := div_nonneg hv (le_of_lt hpos)
  refine ⟨hk, ?_⟩
  rw [pixel_engine_pixel_off]
  simp only [scale]
  rw [luminance_mul mode r g b hk]
  ring

/-- Witness for C17: mode Average, `gain = 0.75`, pixel `(0.15, 0.25, 0.35)`, whose
luminance is `0.25`; the curve value is `0.125`, the factor `0.125/0.25001` is not
zero, and the output luminance is `0.125 * 0.25 / 0.25001`. -/
theorem output_luminance_witness :
    ((0 : ℝ) ≤ 0.75 ∧ (0.75 : ℝ) ≤ 1 ∧ 0 ≤ luminance Mode.AVERAGE (0.15 : ℝ) 0.25 0.35 ∧
        luminance Mode.AVERAGE (0.15 : ℝ) 0.25 0.35 ≤ 1) ∧
      luminance Mode.AVERAGE
          (pixel_engine_pixel ⟨(0.75 : ℝ), false, false, Mode.AVERAGE⟩ 0.15 0.25 0.35).1
          (pixel_engine_pixel ⟨(0.75 : ℝ), false, false, Mode.AVERAGE⟩ 0.15 0.25 0.35).2.1
          (pixel_engine_pixel ⟨(0.75 : ℝ), false, false, Mode.AVERAGE⟩ 0.15 0.25 0.35).2.2 =
        perlin_gain_value ⟨(0.75 : ℝ), false, false, Mode.AVERAGE⟩ 0.15 0.25 0.35
            (luminance Mode.AVERAGE 0.15 0.25 0.35) *
          luminance Mode.AVERAGE 0.15 0.25 0.35 /
            (luminance Mode.AVERAGE 0.15 0.25 0.35 + 0.00001) ∧
      perlin_gain_value ⟨(0.75 : ℝ), false, false, Mode.AVERAGE⟩ 0.15 0.25 0.35
            (luminance Mode.AVERAGE 0.15 0.25 0.35) *
          luminance Mode.AVERAGE 0.15 0.25 0.35 /
            (luminance Mode.AVERAGE 0.15 0.25 0.35 + 0.00001) = 0.125 * 0.25 / 0.25001 :=
  ⟨⟨by norm_num, by norm_num, by norm_num [luminance, y_convert_avg],
      by norm_num [luminance, y_convert_avg]⟩,
    (output_luminance 0.75 Mode.AVERAGE 0.15 0.25 0.35 (by norm_num) (by norm_num)
      (by norm_num [luminance, y_convert_avg]) (by norm_num [luminance, y_convert_avg])).2,
    by
      have hL : luminance Mode.AVERAGE (0.15 : ℝ) 0.25 0.35 = 0.25 := by
        norm_num [luminance, y_convert_avg]
      rw [hL, perlin_gain_value_low _ (by norm_num) 0.15 0.25 0.35 0.25 (by norm_num)]
      simp only [exponent_three_quarters, Real.rpow_two]
      norm_num⟩

/-- C18: for every fixed gain in `[0,1]`, `perlin_gain_value` is non-decreasing in `lum`
on `[0,1]`: `lum1 ≤ lum2` implies `perlin_gain_value(lum1) ≤ perlin_gain_value(lum2)`,
across the branch boundary at `0.5` and at `gain = 0` and `gain = 1` as well. -/
theorem curve_mono_in_lum (self : sf_PerlinGainIop ℝ) (h0 : 0 ≤ self.gain)
    (h1 : self.gain ≤ 1) (r g b r2 g2 b2 lum1 lum2 : ℝ) (hl0 : 0 ≤ lum1)
    (hl : lum1 ≤ lum2) (hl1 : lum2 ≤ 1) :
    perlin_gain_value self r g b lum1 ≤ perlin_gain_value self r2 g2 b2 lum2 := by
  rcases lt_or_le lum1 0.5 with a | a
  · rcases lt_or_le lum2 0.5 with b2' | b2'
    · rcases lt_or_eq_of_le h1 with hlt | heq
      · rw [perlin_gain_value_low self hlt r g b lum1 a,
          perlin_gain_value_low self hlt r2 g2 b2 lum2 b2']
        have hp := Real.rpow_le_rpow (by linarith : (0 : ℝ) ≤ 2 * lum1)
          (by linarith : 2 * lum1 ≤ 2 * lum2) (exponent_nonneg h0 hlt)
        norm_num
        linarith
      · have hge : 1 - self.gain ≤ 0 := by linarith
        rw [perlin_gain_value_of_gain_ge_one self hge,
          perlin_gain_value_of_gain_ge_one self hge, if_pos a, if_pos b2']
    · have u := ((perlin_gain_value_range self h0 h1 r g b lum1 hl0
        (le_trans hl hl1)).1 a).2
      have v := ((perlin_gain_value_range self h0 h1 r2 g2 b2 lum2 (le_trans hl0 hl)
        hl1).2 b2').1
      exact le_trans u v
  · have b2' : (0.5 : ℝ) ≤ lum2 := le_trans a hl
    rcases lt_or_eq_of_le h1 with hlt | heq
    · rw [perlin_gain_value_high self hlt r g b lum1 a,
        perlin_gain_value_high self hlt r2 g2 b2 lum2 b2']
      have hp := Real.rpow_le_rpow (by linarith : (0 : ℝ) ≤ 2 - 2 * lum2)
        (by linarith : 2 - 2 * lum2 ≤ 2 - 2 * lum1) (exponent_nonneg h0 hlt)
      norm_num
      linarith
    · have hge : 1 - self.gain ≤ 0 := by linarith
      rw [perlin_gain_value_of_gain_ge_one self hge,
        perlin_gain_value_of_gain_ge_one self hge, if_neg (not_lt.mpr a),
        if_neg (not_lt.mpr b2')]

/-- Witness for C18: `gain = 0.75`, across the midpoint from `0.25` to `0.75`. -/
theorem curve_mono_in_lum_witness :
    ((0 : ℝ) ≤ 0.75 ∧ (0.75 : ℝ) ≤ 1 ∧ (0 : ℝ) ≤ 0.25 ∧ (0.25 : ℝ) ≤ 0.75 ∧
        (0.75 : ℝ) ≤ 1) ∧
      perlin_gain_value ⟨(0.75 : ℝ), false, false, Mode.REC709⟩ 0.25 0.25 0.25 0.25 ≤
        perlin_gain_value ⟨(0.75 : ℝ), false, false, Mode.REC709⟩ 0.75 0.75 0.75 0.75 :=
  ⟨by norm_num,
    curve_mono_in_lum ⟨0.75, false, false, Mode.REC709⟩ (by norm_num) (by norm_num)
      0.25 0.25 0.25 0.75 0.75 0.75 0.25 0.75 (by norm_num) (by norm_num) (by norm_num)⟩

/-- C19: for gains `g1 ≤ g2` in `[0,1]` and `lum` in `[0,1]`: below the midpoint the
value under `g2` is at most the value under `g1` (non-increasing in gain), from the
midpoint up it is at least that (non-decreasing).  Hence for a gain `≥ 0.5` the result
is `≤ lum` below the midpoint and `≥ lum` from it up, and the reverse for a gain
`≤ 0.5`. -/
theorem curve_gain_direction (s1 s2 : sf_PerlinGainIop ℝ) (h0 : 0 ≤ s1.gain)
    (h12 : s1.gain ≤ s2.gain) (h1 : s2.gain ≤ 1) (r g b lum : ℝ) (hl0 : 0 ≤ lum)
    (hl1 : lum ≤ 1) :
    (lum < 0.5 → perlin_gain_value s2 r g b lum ≤ perlin_gain_value s1 r g b lum) ∧
      (0.5 ≤ lum → perlin_gain_value s1 r g b lum ≤ perlin_gain_value s2 r g b lum) ∧
      (0.5 ≤ s2.gain →
        (lum < 0.5 → perlin_gain_value s2 r g b lum ≤ lum) ∧
        (0.5 ≤ lum → lum ≤ perlin_gain_value s2 r g b lum)) ∧
      (s1.gain ≤ 0.5 →
        (lum < 0.5 → lum ≤ perlin_gain_value s1 r g b lum) ∧
        (0.5 ≤ lum → perlin_gain_value s1 r g b lum ≤ lum)) := by
  have hid : perlin_gain_value ⟨0.5, false, false, Mode.REC709⟩ r g b lum = lum :=
    perlin_gain_value_half false false Mode.REC709 r g b lum
  refine ⟨?_, ?_, ?_, ?_⟩
  · intro hl
    exact perlin_gain_value_gain_low s1 s2 h0 h12 h1 r g b lum hl0 hl
  · intro hl
    exact perlin_gain_value_gain_high s1 s2 h0 h12 h1 r g b lum hl hl1
  · intro hg
    constructor
    · intro hl
      have h := perlin_gain_value_gain_low ⟨0.5, false, false, Mode.REC709⟩ s2
        (by norm_num) hg h1 r g b lum hl0 hl
      rwa [hid] at h
    · intro hl
      have h := perlin_gain_value_gain_high ⟨0.5, false, false, Mode.REC709⟩ s2
        (by norm_num) hg h1 r g b lum hl hl1
      rwa [hid] at h
  · intro hg
    constructor
    · intro hl
      have h := perlin_gain_value_gain_low s1 ⟨0.5, false, false, Mode.REC709⟩
        h0 hg (by norm_num) r g b lum hl0 hl
      rwa [hid] at h
    · intro hl
      have h := perlin_gain_value_gain_high s1 ⟨0.5, false, false, Mode.REC709⟩
        h0 hg (by norm_num) r g b lum hl hl1
      rwa [hid] at h

/-- Witness for C19: gains `0.5 ≤ 0.75` at `lum = 0.25`, below the midpoint. -/
theorem curve_gain_direction_witness :
    ((0 : ℝ) ≤ 0.5 ∧ (0.5 : ℝ) ≤ 0.75 ∧ (0.75 : ℝ) ≤ 1 ∧ (0 : ℝ) ≤ 0.25 ∧
        (0.25 : ℝ) ≤ 1 ∧ (0.25 : ℝ) < 0.5) ∧
      perlin_gain_value ⟨(0.75 : ℝ), false, false, Mode.REC709⟩ 0.25 0.25 0.25 0.25 ≤
        perlin_gain_value ⟨(0.5 : ℝ), false, false, Mode.REC709⟩ 0.25 0.25 0.25 0.25 :=
  ⟨by norm_num,
    (curve_gain_direction ⟨0.5, false, false, Mode.REC709⟩ ⟨0.75, false, false, Mode.REC709⟩
      (by norm_num) (by norm_num) (by norm_num) 0.25 0.25 0.25 0.25 (by norm_num)
      (by norm_num)).1 (by norm_num)⟩

/-- C20 (as amended): in exact real arithmetic (the decimal weights read exactly, the
rounding of the `float` operations set aside) the luminance weights are normalised,
`0.2125 + 0.7154 + 0.0721 = 1` and `0.299 + 0.587 + 0.114 = 1`, so on a grey pixel
`(v, v, v)` all four luminance functions return exactly `v`, and a grey pixel is
transformed identically in every mode. -/
theorem grey_pixel_mode_independent (v gain : ℝ) (cw cb : Bool) (m1 m2 : Mode) :
    ((0.2125 : ℝ) + 0.7154 + 0.0721 = 1 ∧ (0.299 : ℝ) + 0.587 + 0.114 = 1) ∧
      (y_convert_rec709 v v v = v ∧ y_convert_ccir601 v v v = v ∧
        y_convert_avg v v v = v ∧ y_convert_max v v v = v) ∧
      pixel_engine_pixel ⟨gain, cw, cb, m1⟩ v v v =
        pixel_engine_pixel ⟨gain, cw, cb, m2⟩ v v v := by
  refine ⟨by norm_num, ⟨luminance_grey Mode.REC709 v, luminance_grey Mode.CCIR601 v,
    luminance_grey Mode.AVERAGE v, luminance_grey Mode.MAXIMUM v⟩, ?_⟩
  have hs : scale ⟨gain, cw, cb, m1⟩ v v v = scale ⟨gain, cw, cb, m2⟩ v v v := by
    simp only [scale, luminance_grey]
    rw [perlin_gain_value_mode gain cw cb cw cb m1 m2 v v v v v v v]
  rw [pixel_engine_pixel_eq, pixel_engine_pixel_eq, hs]

/-- C20, the claim as stated fails in the `float` arithmetic of the code: the `float`
weights are `7130317/2^25`, `3000605/2^22` and `4838549/2^26`, which sum to `1 - 2^-26`,
and on the grey pixel `(0.5, 0.5, 0.5)` the rounded products and sums of
`y_convert_rec709` give `0.5 - 2^-25`, not `0.5`.  That luminance is below the branch
point: at `gain = 1` the curve then returns `0` in mode Rec709 (output `(0,0,0)`), while
in mode Maximum, where the luminance is `0.5` with no rounding, it returns `1`. -/
theorem grey_luminance_float_not_exact :
    (f32 (0.2125 : ℝ) = 7130317 / 2 ^ 25 ∧ f32 (0.7154 : ℝ) = 3000605 / 2 ^ 22 ∧
        f32 (0.0721 : ℝ) = 4838549 / 2 ^ 26) ∧
      y_convert_rec709_float (0.5 : ℝ) 0.5 0.5 = 0.5 - 1 / 2 ^ 25 ∧
      y_convert_rec709_float (0.5 : ℝ) 0.5 0.5 ≠ 0.5 ∧
      perlin_gain_value ⟨(1 : ℝ), false, false, Mode.REC709⟩ 0.5 0.5 0.5
        (y_convert_rec709_float 0.5 0.5 0.5) = 0 ∧
      perlin_gain_value ⟨(1 : ℝ), false, false, Mode.MAXIMUM⟩ 0.5 0.5 0.5
        (y_convert_max 0.5 0.5 0.5) = 1 := by
  have w1 : f32 (0.2125 : ℝ) = 7130317 / 2 ^ 25 :=
    f32_eval _ (-3) 14260634 _ (by norm_num [abs_of_pos]) (by norm_num [abs_of_pos])
      (by norm_num [abs_lt]) (by norm_num)
  have w2 : f32 (0.7154 : ℝ) = 3000605 / 2 ^ 22 :=
    f32_eval _ (-1) 12002420 _ (by norm_num [abs_of_pos]) (by norm_num [abs_of_pos])
      (by norm_num [abs_lt]) (by norm_num)
  have w3 : f32 (0.0721 : ℝ) = 4838549 / 2 ^ 26 :=
    f32_eval _ (-4) 9677098 _ (by norm_num [abs_of_pos]) (by norm_num [abs_of_pos])
      (by norm_num [abs_lt]) (by norm_num)
  have hY : y_convert_rec709_float (0.5 : ℝ) 0.5 0.5 = 0.5 - 1 / 2 ^ 25 := by
    rw [y_convert_rec709_float_half]
    norm_num
  have hM : y_convert_max (0.5 : ℝ) 0.5 0.5 = 0.5 := by
    rw [y_convert_max_eq]
    simp
  refine ⟨⟨w1, w2, w3⟩, hY, ?_, ?_, ?_⟩
  · rw [hY]
    norm_num
  · rw [hY, perlin_gain_value_of_gain_ge_one _ (by norm_num), if_pos (by norm_num)]
  · rw [hM, perlin_gain_value_of_gain_ge_one _ (by norm_num), if_neg (by norm_num)]

/-! ## The row loop -/

/-- The three channels of a triple are different channels. -/
theorem brother_ne {Chan : Type} (L : ChannelLayout Chan) {z : Chan} (hz : L.colourIndex z < 3)
    {j k : Nat} (hj : j < 3) (hk : k < 3) (hjk : j ≠ k) :
    L.brother z j ≠ L.brother z k := by
  intro h
  have h2 := congrArg L.colourIndex h
  rw [L.colourIndex_brother z j hz hj, L.colourIndex_brother z k hz hk] at h2
  exact hjk h2

/-- A colour channel that is not in a brother-closed set has no brother in it. -/
theorem brother_not_done {Chan : Type} (L : ChannelLayout Chan) {done : List Chan}
    (hcl : ∀ w ∈ done, L.colourIndex w < 3 ∧ ∀ k, k < 3 → L.brother w k ∈ done)
    {z : Chan} (hz : L.colourIndex z < 3) (hnot : z ∉ done) {j : Nat} (hj : j < 3) :
    L.brother z j ∉ done := by
  intro hmem
  have h := (hcl _ hmem).2 (L.colourIndex z) hz
  rw [L.brother_brother z j _ hz hj hz, L.brother_self z hz] at h
  exact hnot h

section RowLemmas

variable {Chan : Type} [DecidableEq Chan] {α : Type} [LinearOrderedField α] [Libm α]

/-- What `pixel_loop` leaves in the output row: on the positions it walks over, the
three channels hold the pixel step of the input samples at the same position (the
later store wins should two of the channels coincide); everything else is untouched. -/
theorem pixel_loop_apply (self : sf_PerlinGainIop α) (inp : Row Chan α)
    (rc gc bc : Chan) :
    ∀ (n : Nat) (i0 : Int) (out : Row Chan α) (c : Chan) (i : Int),
      pixel_loop self inp rc gc bc n i0 out c i =
        if i0 ≤ i ∧ i < i0 + n then
          (if c = bc then (pixel_engine_pixel self (inp rc i) (inp gc i) (inp bc i)).2.2
           else if c = gc then (pixel_engine_pixel self (inp rc i) (inp gc i) (inp bc i)).2.1
           else if c = rc then (pixel_engine_pixel self (inp rc i) (inp gc i) (inp bc i)).1
           else out c i)
        else out c i := by
  intro n
  induction n with
  | zero =>
    intro i0 out c i
    have h : ¬ (i0 ≤ i ∧ i < i0 + ((0 : Nat) : Int)) := by
      rintro ⟨h1, h2⟩
      simp at h2
      omega
    rw [if_neg h]
    rfl
  | succ n ih =>
    intro i0 out c i
    rw [pixel_loop, ih]
    by_cases hi : i = i0
    · subst hi
      have h1 : ¬ (i + 1 ≤ i ∧ i < i + 1 + (n : Int)) := by omega
      have h2 : i ≤ i ∧ i < i + ((n + 1 : Nat) : Int) := by
        push_cast
        omega
      rw [if_neg h1, if_pos h2]
      simp only [store]
      by_cases hb : c = bc
      · simp [hb]
      · by_cases hg : c = gc
        · simp [hb, hg]
        · by_cases hr : c = rc
          · simp [hb, hg, hr]
          · simp [hb, hg, hr]
    · by_cases hin : i0 + 1 ≤ i ∧ i < i0 + 1 + (n : Int)
      · have h2 : i0 ≤ i ∧ i < i0 + ((n + 1 : Nat) : Int) := by
          push_cast
          omega
        rw [if_pos hin, if_pos h2]
        simp [store, hi]
      · have h2 : ¬ (i0 ≤ i ∧ i < i0 + ((n + 1 : Nat) : Int)) := by
          push_cast
          omega
        rw [if_neg hin, if_neg h2]
        simp [store, hi]

variable (L : ChannelLayout Chan) (self : sf_PerlinGainIop α) (inp : Row Chan α)
  (x r : Int)

/-- The `continue` of a channel that is already done. -/
theorem pixel_engine_step_skip {st : List Chan × Row Chan α} {z : Chan} (h : z ∈ st.1) :
    pixel_engine_step L self inp x r st z = st := by
  unfold pixel_engine_step
  rw [if_pos h]

/-- The branch of a channel that is not a colour. -/
theorem pixel_engine_step_copy {st : List Chan × Row Chan α} {z : Chan} (h : z ∉ st.1)
    (hc : 3 ≤ L.colourIndex z) :
    pixel_engine_step L self inp x r st z = (st.1, copy st.2 inp z x r) := by
  unfold pixel_engine_step
  rw [if_neg h, if_pos hc]

/-- The branch of a colour channel whose triple is not done yet. -/
theorem pixel_engine_step_colour {st : List Chan × Row Chan α} {z : Chan} (h : z ∉ st.1)
    (hc : L.colourIndex z < 3) :
    pixel_engine_step L self inp x r st z =
      (L.brother z 2 :: L.brother z 1 :: L.brother z 0 :: st.1,
        pixel_loop self inp (L.brother z 0) (L.brother z 1) (L.brother z 2)
          (r - x).toNat x st.2) := by
  unfold pixel_engine_step
  rw [if_neg h, if_neg (not_le.mpr hc)]

/-- The set `done` only grows. -/
theorem pixel_engine_step_done_mono {st : List Chan × Row Chan α} (z : Chan) {w : Chan}
    (hw : w ∈ st.1) : w ∈ (pixel_engine_step L self inp x r st z).1 := by
  by_cases h : z ∈ st.1
  · rw [pixel_engine_step_skip L self inp x r h]
    exact hw
  · rcases le_or_lt 3 (L.colourIndex z) with hc | hc
    · rw [pixel_engine_step_copy L self inp x r h hc]
      exact hw
    · rw [pixel_engine_step_colour L self inp x r h hc]
      simp [hw]

/-- A visited colour channel is done afterwards. -/
theorem pixel_engine_step_mem {st : List Chan × Row Chan α} {z : Chan}
    (hc : L.colourIndex z < 3) : z ∈ (pixel_engine_step L self inp x r st z).1 := by
  by_cases h : z ∈ st.1
  · rw [pixel_engine_step_skip L self inp x r h]
    exact h
  · rw [pixel_engine_step_colour L self inp x r h hc]
    have hs := L.brother_self z hc
    have h3 : L.colourIndex z = 0 ∨ L.colourIndex z = 1 ∨ L.colourIndex z = 2 := by omega
    rcases h3 with h0 | h0 | h0 <;> rw [h0] at hs <;> simp [hs]

/-- One visit keeps what the row loop has established. -/
theorem pixel_engine_step_processed {st : List Chan × Row Chan α} (z : Chan)
    (hP : Processed L self inp x r st) :
    Processed L self inp x r (pixel_engine_step L self inp x r st z) := by
  obtain ⟨hcl, hval⟩ := hP
  by_cases h : z ∈ st.1
  · rw [pixel_engine_step_skip L self inp x r h]
    exact ⟨hcl, hval⟩
  · rcases le_or_lt 3 (L.colourIndex z) with hc | hc
    · rw [pixel_engine_step_copy L self inp x r h hc]
      refine ⟨hcl, ?_⟩
      intro w hw i hx hr
      have hne : ∀ k, k < 3 → L.brother w k ≠ z := by
        intro k hk e
        have := L.colourIndex_brother w k (hcl w hw).1 hk
        rw [e] at this
        omega
      have hcopy : ∀ k, k < 3 → copy st.2 inp z x r (L.brother w k) i =
          st.2 (L.brother w k) i := by
        intro k hk
        simp [copy, hne k hk]
      simp only [] at hcopy ⊢
      rw [hcopy 0 (by norm_num), hcopy 1 (by norm_num), hcopy 2 (by norm_num)]
      exact hval w hw i hx hr
    · rw [pixel_engine_step_colour L self inp x r h hc]
      have hrange : ∀ i, x ≤ i → i < r → (x ≤ i ∧ i < x + ((r - x).toNat : Int)) := by
        intro i hx hr
        have : ((r - x).toNat : Int) = r - x := Int.toNat_of_nonneg (by omega)
        omega
      have h01 := brother_ne L hc (by norm_num : 0 < 3) (by norm_num : 1 < 3) (by norm_num)
      have h02 := brother_ne L hc (by norm_num : 0 < 3) (by norm_num : 2 < 3) (by norm_num)
      have h12 := brother_ne L hc (by norm_num : 1 < 3) (by norm_num : 2 < 3) (by norm_num)
      have hnew : ∀ w, w ∈ L.brother z 2 :: L.brother z 1 :: L.brother z 0 :: st.1 →
          w ∈ st.1 ∨ ∃ j, j < 3 ∧ w = L.brother z j := by
        intro w hw
        simp only [List.mem_cons] at hw
        rcases hw with e | e | e | e
        · exact Or.inr ⟨2, by norm_num, e⟩
        · exact Or.inr ⟨1, by norm_num, e⟩
        · exact Or.inr ⟨0, by norm_num, e⟩
        · exact Or.inl e
      have hin : ∀ k, k < 3 →
          L.brother z k ∈ L.brother z 2 :: L.brother z 1 :: L.brother z 0 :: st.1 := by
        intro k hk
        have h3 : k = 0 ∨ k = 1 ∨ k = 2 := by omega
        rcases h3 with e | e | e <;> subst e <;> simp
      constructor
      · intro w hw
        rcases hnew w hw with hold | ⟨j, hj, e⟩
        · refine ⟨(hcl w hold).1, ?_⟩
          intro k hk
          exact List.mem_cons_of_mem _ (List.mem_cons_of_mem _ (List.mem_cons_of_mem _
            ((hcl w hold).2 k hk)))
        · subst e
          refine ⟨by rw [L.colourIndex_brother z j hc hj]; exact hj, ?_⟩
          intro k hk
          rw [L.brother_brother z j k hc hj hk]
          exact hin k hk
      · intro w hw i hx hr
        simp only [pixel_loop_apply, if_pos (hrange i hx hr)]
        rcases hnew w hw with hold | ⟨j, hj, e⟩
        · have hcw := (hcl w hold).1
          have hne : ∀ k, k < 3 → ∀ j, j < 3 → L.brother w k ≠ L.brother z j := by
            intro k hk j hj e
            have hmem := (hcl w hold).2 k hk
            rw [e] at hmem
            exact brother_not_done L hcl hc h hj hmem
          rw [if_neg (hne 0 (by norm_num) 2 (by norm_num)),
            if_neg (hne 0 (by norm_num) 1 (by norm_num)),
            if_neg (hne 0 (by norm_num) 0 (by norm_num)),
            if_neg (hne 1 (by norm_num) 2 (by norm_num)),
            if_neg (hne 1 (by norm_num) 1 (by norm_num)),
            if_neg (hne 1 (by norm_num) 0 (by norm_num)),
            if_neg (hne 2 (by norm_num) 2 (by norm_num)),
            if_neg (hne 2 (by norm_num) 1 (by norm_num)),
            if_neg (hne 2 (by norm_num) 0 (by norm_num))]
          exact hval w hold i hx hr
        · subst e
          rw [L.brother_brother z j 0 hc hj (by norm_num),
            L.brother_brother z j 1 hc hj (by norm_num),
            L.brother_brother z j 2 hc hj (by norm_num)]
          rw [if_neg h02, if_neg h01, if_pos rfl, if_neg h12, if_pos rfl, if_pos rfl]

/-- A copied non-colour channel stays equal to the input under every later visit. -/
theorem pixel_engine_step_keeps_copy {st : List Chan × Row Chan α} (z : Chan) {z0 : Chan}
    (hc0 : 3 ≤ L.colourIndex z0)
    (hQ : ∀ i, x ≤ i → i < r → st.2 z0 i = inp z0 i) :
    ∀ i, x ≤ i → i < r → (pixel_engine_step L self inp x r st z).2 z0 i = inp z0 i := by
  intro i hx hr
  by_cases h : z ∈ st.1
  · rw [pixel_engine_step_skip L self inp x r h]
    exact hQ i hx hr
  · rcases le_or_lt 3 (L.colourIndex z) with hc | hc
    · rw [pixel_engine_step_copy L self inp x r h hc]
      simp only [copy]
      by_cases e : z0 = z ∧ x ≤ i ∧ i < r
      · rw [if_pos e]
      · rw [if_neg e]
        exact hQ i hx hr
    · rw [pixel_engine_step_colour L self inp x r h hc]
      have hne : ∀ j, j < 3 → z0 ≠ L.brother z j := by
        intro j hj e
        have := L.colourIndex_brother z j hc hj
        rw [← e] at this
        omega
      simp only [pixel_loop_apply]
      rw [if_neg (hne 2 (by norm_num)), if_neg (hne 1 (by norm_num)),
        if_neg (hne 0 (by norm_num))]
      simp only [ite_self]
      exact hQ i hx hr

/-- Visiting a non-colour channel copies it from the input. -/
theorem pixel_engine_step_copies {st : List Chan × Row Chan α} {z : Chan}
    (hP : Processed L self inp x r st) (hc : 3 ≤ L.colourIndex z) :
    ∀ i, x ≤ i → i < r → (pixel_engine_step L self inp x r st z).2 z i = inp z i := by
  intro i hx hr
  have h : z ∉ st.1 := by
    intro hmem
    have := (hP.1 z hmem).1
    omega
  rw [pixel_engine_step_copy L self inp x r h hc]
  simp [copy, hx, hr]

/-- The whole `foreach` keeps what the row loop has established. -/
theorem foldl_processed (l : List Chan) :
    ∀ st : List Chan × Row Chan α, Processed L self inp x r st →
      Processed L self inp x r (l.foldl (pixel_engine_step L self inp x r) st) := by
  induction l with
  | nil =>
    intro st hP
    exact hP
  | cons z l ih =>
    intro st hP
    exact ih _ (pixel_engine_step_processed L self inp x r z hP)

/-- Over the whole `foreach` the set `done` only grows. -/
theorem foldl_done_mono (l : List Chan) :
    ∀ (st : List Chan × Row Chan α) (w : Chan), w ∈ st.1 →
      w ∈ (l.foldl (pixel_engine_step L self inp x r) st).1 := by
  induction l with
  | nil =>
    intro st w hw
    exact hw
  | cons z l ih =>
    intro st w hw
    exact ih _ w (pixel_engine_step_done_mono L self inp x r z hw)

/-- Every requested colour channel is done at the end. -/
theorem foldl_mem (l : List Chan) :
    ∀ (st : List Chan × Row Chan α) (z : Chan), z ∈ l → L.colourIndex z < 3 →
      z ∈ (l.foldl (pixel_engine_step L self inp x r) st).1 := by
  induction l with
  | nil =>
    intro st z hz
    exact absurd hz (List.not_mem_nil z)
  | cons a l ih =>
    intro st z hz hc
    rcases List.mem_cons.mp hz with e | e
    · subst e
      exact foldl_done_mono L self inp x r l _ z (pixel_engine_step_mem L self inp x r hc)
    · exact ih _ z e hc

/-- A copied non-colour channel stays equal to the input to the end of the `foreach`. -/
theorem foldl_keeps_copy (l : List Chan) {z0 : Chan} (hc0 : 3 ≤ L.colourIndex z0) :
    ∀ st : List Chan × Row Chan α, (∀ i, x ≤ i → i < r → st.2 z0 i = inp z0 i) →
      ∀ i, x ≤ i → i < r →
        (l.foldl (pixel_engine_step L self inp x r) st).2 z0 i = inp z0 i := by
  induction l with
  | nil =>
    intro st hQ
    exact hQ
  | cons z l ih =>
    intro st hQ
    exact ih _ (pixel_engine_step_keeps_copy L self inp x r z hc0 hQ)

/-- Every requested non-colour channel equals the input at the end. -/
theorem foldl_copies (l : List Chan) {z0 : Chan} (hc0 : 3 ≤ L.colourIndex z0) :
    ∀ st : List Chan × Row Chan α, Processed L self inp x r st → z0 ∈ l →
      ∀ i, x ≤ i → i < r →
        (l.foldl (pixel_engine_step L self inp x r) st).2 z0 i = inp z0 i := by
  induction l with
  | nil =>
    intro st _ hz
    exact absurd hz (List.not_mem_nil z0)
  | cons z l ih =>
    intro st hP hz
    rcases List.mem_cons.mp hz with e | e
    · subst e
      exact foldl_keeps_copy L self inp x r l hc0 _
        (pixel_engine_step_copies L self inp x r hP hc0)
    · exact ih _ (pixel_engine_step_processed L self inp x r z hP) e

/-- The three output samples of a requested colour channel's triple. -/
theorem pixel_engine_triple (y : Int) (channels : List Chan) (out : Row Chan α) {z : Chan}
    (hz : z ∈ channels) (hc : L.colourIndex z < 3) (i : Int) (hx : x ≤ i) (hr : i < r) :
    (pixel_engine L self inp y x r channels out (L.brother z 0) i,
      pixel_engine L self inp y x r channels out (L.brother z 1) i,
      pixel_engine L self inp y x r channels out (L.brother z 2) i) =
      pixel_engine_pixel self (inp (L.brother z 0) i) (inp (L.brother z 1) i)
        (inp (L.brother z 2) i) := by
  have hs : Processed L self inp x r ([], out) :=
    ⟨fun w hw => absurd hw (List.not_mem_nil w), fun w hw => absurd hw (List.not_mem_nil w)⟩
  have hP := foldl_processed L self inp x r channels _ hs
  have hm := foldl_mem L self inp x r channels ([], out) z hz hc
  exact hP.2 z hm i hx hr

end RowLemmas

/-! ## The claims on the row loop and on the declared channels -/

/-- C13: for every requested channel `z` with `colourIndex(z) ≥ 3`, `pixel_engine`
leaves the output row equal to the input row on that channel at every position in
`[x, r)`, for every gain, mode and clamp setting. -/
theorem noncolour_passthrough {Chan : Type} [DecidableEq Chan] {α : Type}
    [LinearOrderedField α] [Libm α] (L : ChannelLayout Chan) (self : sf_PerlinGainIop α)
    (inp out : Row Chan α) (y x r : Int) (channels : List Chan) (z : Chan)
    (hz : z ∈ channels) (hc : 3 ≤ L.colourIndex z) (i : Int) (hx : x ≤ i) (hr : i < r) :
    pixel_engine L self inp y x r channels out z i = inp z i := by
  have hs : Processed L self inp x r ([], out) :=
    ⟨fun w hw => absurd hw (List.not_mem_nil w), fun w hw => absurd hw (List.not_mem_nil w)⟩
  exact foldl_copies L self inp x r channels hc _ hs hz i hx hr

/-- Witness for C13: the request `[0, 3, 1]` (red, alpha, green of the first layer) on
positions `0 ≤ i < 2`; the alpha channel `3` comes out as it went in. -/
theorem noncolour_passthrough_witness :
    ((3 : Nat) ∈ [0, 3, 1] ∧ 3 ≤ rgbaLayout.colourIndex 3 ∧ (0 : Int) ≤ 1 ∧ (1 : Int) < 2) ∧
      pixel_engine rgbaLayout ⟨(0.75 : ℝ), true, false, Mode.MAXIMUM⟩
          (fun c i => (c : ℝ) + i) 0 0 2 [0, 3, 1] (fun _ _ => 0) 3 1 =
        (fun (c : Nat) (i : Int) => (c : ℝ) + i) 3 1 :=
  ⟨⟨by decide, by decide, by decide, by decide⟩,
    noncolour_passthrough rgbaLayout ⟨(0.75 : ℝ), true, false, Mode.MAXIMUM⟩
      (fun c i => (c : ℝ) + i) (fun _ _ => 0) 0 0 2 [0, 3, 1] 3 (by decide) (by decide) 1
      (by decide) (by decide)⟩

/-- C14: for every colour channel `z` of the requested set (so for every triple the
request touches, through whichever of its channels) and every position `i` in `[x, r)`,
the three output samples of the triple at `i` are the pixel step of the three input
samples at `i`.  Hence they are the same for any other input row that agrees on these
three samples, whatever it holds elsewhere.  And once `z` was visited the triple is
done: visiting any channel of the same triple afterwards changes nothing. -/
theorem colour_triple_pointwise {Chan : Type} [DecidableEq Chan] {α : Type}
    [LinearOrderedField α] [Libm α] (L : ChannelLayout Chan) (self : sf_PerlinGainIop α)
    (inp out : Row Chan α) (y x r : Int) (channels : List Chan) (z : Chan)
    (hz : z ∈ channels) (hc : L.colourIndex z < 3) (i : Int) (hx : x ≤ i) (hr : i < r) :
    (pixel_engine L self inp y x r channels out (L.brother z 0) i,
        pixel_engine L self inp y x r channels out (L.brother z 1) i,
        pixel_engine L self inp y x r channels out (L.brother z 2) i) =
        pixel_engine_pixel self (inp (L.brother z 0) i) (inp (L.brother z 1) i)
          (inp (L.brother z 2) i) ∧
      (∀ (inp2 out2 : Row Chan α),
        (∀ k, k < 3 → inp2 (L.brother z k) i = inp (L.brother z k) i) →
        ∀ k, k < 3 →
          pixel_engine L self inp2 y x r channels out2 (L.brother z k) i =
            pixel_engine L self inp y x r channels out (L.brother z k) i) ∧
      (∀ st : List Chan × Row Chan α, z ∉ st.1 → ∀ k, k < 3 →
        pixel_engine_step L self inp x r (pixel_engine_step L self inp x r st z)
            (L.brother z k) =
          pixel_engine_step L self inp x r st z) := by
  have h1 := pixel_engine_triple L self inp x r y channels out hz hc i hx hr
  refine ⟨h1, ?_, ?_⟩
  · intro inp2 out2 hagree k hk
    have h2 := pixel_engine_triple L self inp2 x r y channels out2 hz hc i hx hr
    rw [hagree 0 (by norm_num), hagree 1 (by norm_num), hagree 2 (by norm_num), ← h1] at h2
    have e0 := congrArg Prod.fst h2
    have e1 := congrArg (fun p => p.2.1) h2
    have e2 := congrArg (fun p => p.2.2) h2
    have h3 : k = 0 ∨ k = 1 ∨ k = 2 := by omega
    rcases h3 with e | e | e <;> subst e
    · exact e0
    · exact e1
    · exact e2
  · intro st hnot k hk
    apply pixel_engine_step_skip
    rw [pixel_engine_step_colour L self inp x r hnot hc]
    have h3 : k = 0 ∨ k = 1 ∨ k = 2 := by omega
    rcases h3 with e | e | e <;> subst e <;> simp

/-- Witness for C14: the request `[1, 0]` (green, then red of the first layer); the
triple `0 1 2` is reached through the channel `0`, visited second. -/
theorem colour_triple_pointwise_witness :
    ((0 : Nat) ∈ [1, 0] ∧ rgbaLayout.colourIndex 0 < 3 ∧ (0 : Int) ≤ 1 ∧ (1 : Int) < 2) ∧
      (pixel_engine rgbaLayout ⟨(1 : ℝ), false, false, Mode.AVERAGE⟩
          (fun c i => (c : ℝ) + i) 0 0 2 [1, 0] (fun _ _ => 0) (rgbaLayout.brother 0 0) 1,
        pixel_engine rgbaLayout ⟨(1 : ℝ), false, false, Mode.AVERAGE⟩
          (fun c i => (c : ℝ) + i) 0 0 2 [1, 0] (fun _ _ => 0) (rgbaLayout.brother 0 1) 1,
        pixel_engine rgbaLayout ⟨(1 : ℝ), false, false, Mode.AVERAGE⟩
          (fun c i => (c : ℝ) + i) 0 0 2 [1, 0] (fun _ _ => 0) (rgbaLayout.brother 0 2) 1) =
        pixel_engine_pixel ⟨(1 : ℝ), false, false, Mode.AVERAGE⟩
          ((fun (c : Nat) (i : Int) => (c : ℝ) + i) (rgbaLayout.brother 0 0) 1)
          ((fun (c : Nat) (i : Int) => (c : ℝ) + i) (rgbaLayout.brother 0 1) 1)
          ((fun (c : Nat) (i : Int) => (c : ℝ) + i) (rgbaLayout.brother 0 2) 1) :=
  ⟨⟨by decide, by decide, by decide, by decide⟩,
    (colour_triple_pointwise rgbaLayout ⟨(1 : ℝ), false, false, Mode.AVERAGE⟩
      (fun c i => (c : ℝ) + i) (fun _ _ => 0) 0 0 2 [1, 0] 0 (by decide) (by decide) 1
      (by decide) (by decide)).1⟩

/-- C15 (as amended): `_validate` declares `Mask_None` when `gain == 0.5` and `Mask_All`
otherwise, whatever the two constants are; with the host's constants the declared set
is empty exactly when `gain == 0.5`, and for every other gain it holds every channel,
the colour channels and the non-colour channels alike. -/
theorem validate_out_channels {Chan : Type} [Nonempty Chan] (self : sf_PerlinGainIop ℝ)
    (for_real : Bool) :
    (∀ (S : Type) (maskAll maskNone : S),
        _validate maskAll maskNone self for_real =
          if self.gain = 0.5 then maskNone else maskAll) ∧
      ((∀ c : Chan, _validate Mask_All Mask_None self for_real c = false) ↔
          self.gain = 0.5) ∧
      (self.gain ≠ 0.5 → ∀ c : Chan, _validate Mask_All Mask_None self for_real c = true) := by
  have hgen : ∀ (S : Type) (maskAll maskNone : S),
      _validate maskAll maskNone self for_real =
        if self.gain = 0.5 then maskNone else maskAll := by
    intro S maskAll maskNone
    unfold _validate
    by_cases h : self.gain = 0.5
    · rw [if_pos h, if_neg (not_not.mpr h)]
    · rw [if_neg h, if_pos h]
  refine ⟨hgen, ?_, ?_⟩
  · constructor
    · intro h
      by_contra hne
      obtain ⟨c⟩ := (inferInstance : Nonempty Chan)
      have hc := h c
      rw [hgen, if_neg hne] at hc
      simp [Mask_All] at hc
    · intro h c
      rw [hgen, if_pos h]
      rfl
  · intro hne c
    rw [hgen, if_neg hne]
    rfl

/-- C15, the claim as stated fails: at `gain = 1` the declared set holds the channel
`3` of the sample layout, whose colour index is `3`, not a colour. -/
theorem validate_declares_noncolour :
    (1 : ℝ) ≠ 0.5 ∧ 3 ≤ rgbaLayout.colourIndex 3 ∧
      _validate Mask_All Mask_None ⟨(1 : ℝ), false, false, Mode.REC709⟩ true (3 : Nat)
        = true := by
  refine ⟨by norm_num, by decide, ?_⟩
  unfold _validate
  rw [if_pos (by norm_num)]
  rfl

/-- Witness for C15 (as amended): `gain = 1`, channels numbered by `Nat`, the alpha
channel `3`. -/
theorem validate_out_channels_witness :
    (1 : ℝ) ≠ 0.5 ∧
      _validate Mask_All Mask_None ⟨(1 : ℝ), false, false, Mode.REC709⟩ true (3 : Nat)
        = true :=
  ⟨by norm_num,
    (validate_out_channels ⟨(1 : ℝ), false, false, Mode.REC709⟩ true).2.2 (by norm_num) 3⟩

end PerlinGain
